import Mathlib

/-!
# LibraLM Reader — verification of the specification against the code

A shallow embedding, in Lean 4, of the core algorithms of the LibraLM
reader (an MCP book/RSS reading server written in TypeScript), together
with theorems settling the frozen specification claims.

Modelling conventions, used throughout:

* JavaScript strings are modelled as `List Char` (`JStr`).  JavaScript
  string primitives (`slice`, `startsWith`, `indexOf`, `split`, `trim`,
  `includes`) are re-implemented on `List Char` with their JS semantics.
* JavaScript truthiness on `string | undefined` values (`a || b`,
  `if (!x)`) is modelled explicitly: `none` and `some ""` are falsy.
* Machine numbers are `Nat` / `Int` / `ℚ`; the code never relies on
  overflow, and the only fractional arithmetic (BM25 score
  normalization, scroll positions) is modelled exactly over `ℚ`.
* In-memory `Map`s are association lists with JavaScript `Map.set`
  (last write wins) or set-if-absent insertion, as each call site uses.
* Asynchronous code has no internal concurrency (single-threaded event
  loop); each tool call is modelled as a pure state transformer.
-/

set_option maxRecDepth 8000

namespace LibraLM

/-- JavaScript strings, modelled as lists of characters. -/
abbrev JStr := List Char

/-- JS truthiness of a `string | undefined` value: `undefined` and the
empty string are falsy. -/
def jsTruthy : Option JStr → Bool
  | none => false
  | some s => !s.isEmpty

/-- JS `a || b` on `string | undefined` values. -/
def jsOr (a b : Option JStr) : Option JStr :=
  if jsTruthy a then a else b

/-- Decimal digits of a natural number as characters; `go` carries fuel
(one unit per recursive step, `n + 1` is always enough since `n / 10`
shrinks strictly below any positive `n`). -/
def natCharsGo : Nat → Nat → JStr
  | 0, _ => []
  | _ + 1, n =>
    if n < 10 then [Char.ofNat (48 + n)]
    else natCharsGo n (n / 10) ++ [Char.ofNat (48 + n % 10)]

/-- `String(n)` for a natural number, as a character list. -/
def natChars (n : Nat) : JStr := natCharsGo (n + 1) n

/-- The whitespace characters removed by JS `String.prototype.trim`
(the ASCII ones plus NBSP; the exotic Unicode space separators do not
occur in the modelled data). -/
def jsIsSpace (c : Char) : Bool :=
  c = ' ' || c = '\t' || c = '\n' || c = '\r' ||
  c = Char.ofNat 11 || c = Char.ofNat 12 || c = Char.ofNat 160

/-- JS `s.trim()`. -/
def jsTrim (s : JStr) : JStr :=
  ((s.dropWhile jsIsSpace).reverse.dropWhile jsIsSpace).reverse

/- ============================================================== -/
/- C2 — src/server/tools/indexing.ts, readChapter (lines 223-299):
   progressive chapter reading with offset/limit chunking.          -/
/- ============================================================== -/

/-- `readChapter`'s default slice size: the whole chapter unless it is
longer than 50,000 characters, in which case 30,000
(`const defaultLimit = totalLength > 50000 ? 30000 : totalLength`). -/
def defaultLimitFor (totalLength : Nat) : Nat :=
  if totalLength > 50000 then 30000 else totalLength

/-- The pagination-relevant result of one `readChapter` call. -/
structure ReadSlice where
  content : JStr
  totalLength : Nat
  offset : Nat
  sliceLength : Nat
  hasMore : Bool
  nextOffset : Option Nat
  deriving DecidableEq, Repr

/-- The slicing logic of `readChapter` (indexing.ts lines 250-261 and
284-297): `content.slice(offset, offset + limit)` with
`limit = args.limit ?? defaultLimit`, reporting `totalLength`,
`hasMore` and `nextOffset` exactly as the code computes them. -/
def readChapterSlice (content : JStr) (offset : Nat) (limit? : Option Nat) :
    ReadSlice :=
  let totalLength := content.length
  let limit := limit?.getD (defaultLimitFor totalLength)
  let contentSlice := (content.drop offset).take limit
  let endOffset := offset + contentSlice.length
  { content := contentSlice
    totalLength := totalLength
    offset := offset
    sliceLength := contentSlice.length
    hasMore := endOffset < totalLength
    nextOffset := if endOffset < totalLength then some endOffset else none }

/-- Driving `readChapterSlice` with the protocol of the claim: start at
an offset, and keep calling with `offset := nextOffset` while `hasMore`,
concatenating the returned slices.  `fuel` bounds the number of calls;
each productive call advances the offset by at least one, so
`content.length + 1` units always suffice. -/
def readAllFromAux (content : JStr) : Nat → Nat → JStr
  | 0, _ => []
  | fuel + 1, offset =>
    let r := readChapterSlice content offset none
    match r.nextOffset with
    | some n => r.content ++ readAllFromAux content fuel n
    | none => r.content

/-- All content obtained by reading a chapter progressively from offset
0 with no explicit limit, following `nextOffset` until `hasMore` is
false. -/
def readAllFrom (content : JStr) : JStr :=
  readAllFromAux content (content.length + 1) 0

theorem readChapterSlice_content (content : JStr) (offset : Nat)
    (limit? : Option Nat) :
    (readChapterSlice content offset limit?).content =
      (content.drop offset).take (limit?.getD (defaultLimitFor content.length)) := rfl

theorem readChapterSlice_nextOffset (content : JStr) (offset : Nat)
    (limit? : Option Nat) :
    (readChapterSlice content offset limit?).nextOffset =
      if offset + ((content.drop offset).take
          (limit?.getD (defaultLimitFor content.length))).length <
          content.length
      then some (offset + ((content.drop offset).take
          (limit?.getD (defaultLimitFor content.length))).length)
      else none := rfl

theorem readChapterSlice_hasMore (content : JStr) (offset : Nat)
    (limit? : Option Nat) :
    (readChapterSlice content offset limit?).hasMore =
      decide (offset + ((content.drop offset).take
          (limit?.getD (defaultLimitFor content.length))).length <
          content.length) := rfl

theorem readAllFromAux_succ (content : JStr) (fuel offset : Nat) :
    readAllFromAux content (fuel + 1) offset =
      match (readChapterSlice content offset none).nextOffset with
      | some n => (readChapterSlice content offset none).content ++
          readAllFromAux content fuel n
      | none => (readChapterSlice content offset none).content := rfl

theorem readAllFromAux_eq_drop (content : JStr) (fuel offset : Nat)
    (hfuel : content.length - offset < fuel) :
    readAllFromAux content fuel offset = content.drop offset := by
  induction fuel generalizing offset with
  | zero => omega
  | succ fuel ih =>
    rw [readAllFromAux_succ, readChapterSlice_nextOffset,
      readChapterSlice_content]
    simp only [Option.getD_none]
    have hlen : ((content.drop offset).take
        (defaultLimitFor content.length)).length =
        min (defaultLimitFor content.length) (content.length - offset) := by
      simp
    by_cases hmore :
        offset + ((content.drop offset).take
          (defaultLimitFor content.length)).length < content.length
    · rw [if_pos hmore]
      have hpos : 0 < ((content.drop offset).take
          (defaultLimitFor content.length)).length := by
        rw [hlen]
        rw [hlen] at hmore
        have hd0 : defaultLimitFor content.length ≠ 0 := by
          unfold defaultLimitFor
          split <;> omega
        omega
      dsimp only
      rw [ih _ (by omega)]
      have hdrop : content.drop (offset + ((content.drop offset).take
          (defaultLimitFor content.length)).length) =
          (content.drop offset).drop (((content.drop offset).take
            (defaultLimitFor content.length)).length) := by
        rw [List.drop_drop]
      rw [hdrop, hlen]
      have hmin : (content.drop offset).drop
          (min (defaultLimitFor content.length) (content.length - offset)) =
          (content.drop offset).drop (defaultLimitFor content.length) := by
        rcases le_total (defaultLimitFor content.length)
          (content.length - offset) with h | h
        · rw [min_eq_left h]
        · rw [min_eq_right h]
          have h1 : (content.drop offset).length ≤ content.length - offset := by
            simp
          have h2 : (content.drop offset).length ≤
              defaultLimitFor content.length := le_trans h1 h
          rw [List.drop_eq_nil_of_le h1, List.drop_eq_nil_of_le h2]
      rw [hmin, List.take_append_drop]
    · rw [if_neg hmore]
      rw [hlen] at hmore
      have hge : (content.drop offset).length ≤
          defaultLimitFor content.length := by
        simp only [List.length_drop]
        omega
      rw [List.take_of_length_le hge]

/-- **C2.** Progressive chapter reading is gap- and overlap-free: for
every chapter, reading from offset 0 with no explicit limit and
following `nextOffset` while `hasMore` reconstructs exactly the full
chapter text.  With no explicit limit, the returned slice is the whole
chapter when its length is at most 50,000 characters and the first
30,000 characters otherwise; in particular, for a 180,000-character
chapter the first call returns characters [0,30000) with
`hasMore = true` and `nextOffset = 30000`. -/
theorem readChapter_progressive_correct :
    (∀ content : JStr, readAllFrom content = content) ∧
    (∀ content : JStr, content.length ≤ 50000 →
      (readChapterSlice content 0 none).content = content ∧
      (readChapterSlice content 0 none).hasMore = false) ∧
    (∀ content : JStr, 50000 < content.length →
      (readChapterSlice content 0 none).content = content.take 30000 ∧
      (readChapterSlice content 0 none).hasMore = true ∧
      (readChapterSlice content 0 none).nextOffset = some 30000) ∧
    ((readChapterSlice (List.replicate 180000 'a') 0 none).content =
        List.replicate 30000 'a' ∧
      (readChapterSlice (List.replicate 180000 'a') 0 none).hasMore = true ∧
      (readChapterSlice (List.replicate 180000 'a') 0 none).nextOffset =
        some 30000) := by
  have hgen : ∀ content : JStr, 50000 < content.length →
      (readChapterSlice content 0 none).content = content.take 30000 ∧
      (readChapterSlice content 0 none).hasMore = true ∧
      (readChapterSlice content 0 none).nextOffset = some 30000 := by
    intro content hlong
    have hd : defaultLimitFor content.length = 30000 := by
      unfold defaultLimitFor
      simp [hlong]
    refine ⟨?_, ?_, ?_⟩
    · simp [readChapterSlice, hd]
    · simp [readChapterSlice, hd]
      omega
    · simp [readChapterSlice, hd]
      omega
  refine ⟨?_, ?_, hgen, ?_⟩
  · intro content
    unfold readAllFrom
    rw [readAllFromAux_eq_drop content (content.length + 1) 0 (by omega)]
    simp
  · intro content hshort
    have hd : defaultLimitFor content.length = content.length := by
      unfold defaultLimitFor
      split <;> omega
    constructor
    · simp [readChapterSlice, hd, List.take_of_length_le]
    · simp [readChapterSlice, hd]
  · have hlong : (50000 : Nat) < (List.replicate 180000 'a').length := by
      rw [List.length_replicate]
      norm_num
    have h := hgen (List.replicate 180000 'a') hlong
    refine ⟨?_, h.2.1, h.2.2⟩
    rw [h.1, List.take_replicate]
    have hmin : min 30000 180000 = 30000 := by norm_num
    rw [hmin]

/-- Witness for C2: the hypotheses of the bounded conjuncts are
satisfiable; instantiate the ≤-50000 branch at the one-character
chapter `['x']`. -/
theorem readChapter_progressive_correct_witness :
    (readChapterSlice ['x'] 0 none).content = ['x'] ∧
    (readChapterSlice ['x'] 0 none).hasMore = false :=
  readChapter_progressive_correct.2.1 ['x'] (by decide)

/- ============================================================== -/
/- C7 — loadBook tool (library tools module, loadBookTool):
   validation and repair of out-of-range persisted positions.       -/
/- ============================================================== -/

/-- A persisted reading position (`ReadingPosition` in
src/storage/index.ts); `scrollPosition` is a JS number in [0,1],
modelled exactly over ℚ. -/
structure ReadingPosition where
  chapterIndex : Nat
  scrollPosition : ℚ
  lastRead : JStr
  deriving DecidableEq

/-- `SessionData` from src/storage/index.ts: per-book positions
(a JS object keyed by book id, so at most one binding per key) and the
last opened book. -/
structure SessionData where
  positions : List (JStr × ReadingPosition)
  lastBook : Option JStr
  deriving DecidableEq

/-- `storage.getPosition(bookId)`: `session.positions[bookId]`. -/
def getPosition (s : SessionData) (bookId : JStr) : Option ReadingPosition :=
  (s.positions.find? (fun p => p.1 == bookId)).map (fun p => p.2)

/-- `storage.savePosition(bookId, position)`: sets
`session.positions[bookId] = position; session.lastBook = bookId`
(JS object assignment: replaces the existing binding or adds one). -/
def savePosition (s : SessionData) (bookId : JStr) (pos : ReadingPosition) :
    SessionData :=
  { positions :=
      if s.positions.any (fun p => p.1 == bookId) then
        s.positions.map (fun p => if p.1 == bookId then (p.1, pos) else p)
      else s.positions ++ [(bookId, pos)]
    lastBook := some bookId }

/-- The reading-position half of `loadBookTool` (library tools module,
lines 185-211): fetch the persisted position; if its `chapterIndex` is
≥ the book's current chapter count, reset it to chapter 0 / scroll 0
(keeping `lastRead`) and persist the correction via
`storage.savePosition`; finally record the book as `lastBook`.
Returns the updated session and the `lastPosition` reported to the
caller. -/
def loadBookPositionRepair (session : SessionData) (bookId : JStr)
    (chapterCount : Nat) : SessionData × Option ReadingPosition :=
  match getPosition session bookId with
  | some p =>
    if p.chapterIndex ≥ chapterCount then
      let corrected : ReadingPosition :=
        { chapterIndex := 0, scrollPosition := 0, lastRead := p.lastRead }
      ({ savePosition session bookId corrected with lastBook := some bookId },
        some corrected)
    else ({ session with lastBook := some bookId }, some p)
  | none => ({ session with lastBook := some bookId }, none)

theorem find_map_replace (bookId : JStr) (v : ReadingPosition) :
    ∀ l : List (JStr × ReadingPosition),
    l.any (fun q => q.1 == bookId) = true →
    ((l.map (fun q => if q.1 == bookId then (q.1, v) else q)).find?
      (fun q => q.1 == bookId)).map (fun q => q.2) = some v := by
  intro l
  induction l with
  | nil => intro h; exact Bool.noConfusion h
  | cons x xs ih =>
    intro h
    by_cases hx : x.1 == bookId
    · rw [List.map_cons, if_pos hx]
      simp only [List.find?_cons, hx, Option.map_some']
    · have hx' : (x.1 == bookId) = false := by simpa using hx
      rw [List.map_cons, if_neg (by simp [hx'])]
      simp only [List.find?_cons, hx']
      apply ih
      simp only [List.any_cons, hx', Bool.false_or] at h
      exact h

theorem getPosition_savePosition (session : SessionData) (bookId : JStr)
    (v : ReadingPosition)
    (hany : session.positions.any (fun q => q.1 == bookId) = true) :
    getPosition (savePosition session bookId v) bookId = some v := by
  unfold getPosition savePosition
  rw [if_pos hany]
  exact find_map_replace bookId v session.positions hany

/-- **C7.** When `loadBook` finds a persisted position whose
`chapterIndex` is ≥ the book's current chapter count, it resets the
position to chapter 0 and writes the corrected position back to the
persisted session (not merely returning it); an in-range position is
returned unchanged and the stored positions are not modified. -/
theorem loadBook_position_repair (session : SessionData) (bookId : JStr)
    (chapterCount : Nat) (p : ReadingPosition)
    (hfound : getPosition session bookId = some p) :
    (p.chapterIndex ≥ chapterCount →
      (loadBookPositionRepair session bookId chapterCount).2 =
        some { chapterIndex := 0, scrollPosition := 0, lastRead := p.lastRead } ∧
      getPosition (loadBookPositionRepair session bookId chapterCount).1
          bookId =
        some { chapterIndex := 0, scrollPosition := 0, lastRead := p.lastRead }) ∧
    (p.chapterIndex < chapterCount →
      (loadBookPositionRepair session bookId chapterCount).2 = some p ∧
      (loadBookPositionRepair session bookId chapterCount).1.positions =
        session.positions) := by
  have hany : session.positions.any (fun q => q.1 == bookId) = true := by
    unfold getPosition at hfound
    rcases hmem : session.positions.find? (fun q => q.1 == bookId) with _ | q
    · rw [hmem] at hfound
      simp at hfound
    · have := List.find?_some hmem
      rw [List.any_eq_true]
      exact ⟨q, List.mem_of_find?_eq_some hmem, this⟩
  constructor
  · intro hge
    unfold loadBookPositionRepair
    rw [hfound]
    dsimp only
    rw [if_pos hge]
    refine ⟨rfl, ?_⟩
    have hsave := getPosition_savePosition session bookId
      { chapterIndex := 0, scrollPosition := 0, lastRead := p.lastRead } hany
    unfold getPosition at hsave ⊢
    exact hsave
  · intro hlt
    unfold loadBookPositionRepair
    rw [hfound]
    dsimp only
    rw [if_neg (by omega)]
    exact ⟨rfl, rfl⟩

/-- Witness for C7: a one-book session whose saved position (chapter 7)
is out of range for a 3-chapter book is repaired to chapter 0, both in
the returned position and in the persisted session. -/
theorem loadBook_position_repair_witness :
    (loadBookPositionRepair
        { positions := [(['b'],
            { chapterIndex := 7, scrollPosition := 0, lastRead := ['t'] })],
          lastBook := none } ['b'] 3).2 =
      some { chapterIndex := 0, scrollPosition := 0, lastRead := ['t'] } ∧
    getPosition (loadBookPositionRepair
        { positions := [(['b'],
            { chapterIndex := 7, scrollPosition := 0, lastRead := ['t'] })],
          lastBook := none } ['b'] 3).1 ['b'] =
      some { chapterIndex := 0, scrollPosition := 0, lastRead := ['t'] } :=
  (loadBook_position_repair
      { positions := [(['b'],
          { chapterIndex := 7, scrollPosition := 0, lastRead := ['t'] })],
        lastBook := none } ['b'] 3
      { chapterIndex := 7, scrollPosition := 0, lastRead := ['t'] }
      (by rfl)).1 (by norm_num)

/- ============================================================== -/
/- C9 — RSS engine, fetchFeed (feed parsing module, lines 93-134):
   GUID normalization for parsed feed items.                        -/
/- ============================================================== -/

/-- A raw feed item as surfaced by the feed parser: every identity-
relevant field may be missing or empty. -/
structure RawFeedItem where
  guid : Option JStr
  link : Option JStr
  title : Option JStr
  deriving DecidableEq

/-- The GUID chosen by `fetchFeed` for one item:
`item.guid || item.link || item.title || crypto.randomUUID()`
(JS `||`, so empty strings fall through).  `uuid` stands for the
freshly generated `crypto.randomUUID()` value. -/
def normalizeGuid (item : RawFeedItem) (uuid : JStr) : JStr :=
  (jsOr (jsOr (jsOr item.guid item.link) item.title) (some uuid)).getD []

/-- GUIDs of all items of a parsed feed; `uuidAt i` models the random
UUID drawn for the i-th item when needed. -/
def parsedFeedGuids (items : List RawFeedItem) (uuidAt : Nat → JStr) :
    List JStr :=
  items.enum.map (fun p => normalizeGuid p.2 (uuidAt p.1))

/-- From the claim: the first non-empty value among a list of optional
strings. -/
def firstNonEmpty : List (Option JStr) → Option JStr
  | [] => none
  | a :: rest => if jsTruthy a then a else firstNonEmpty rest

/-- **C9.** Every parsed feed item's GUID follows the exact fallback
priority guid → link → title → freshly generated random ID, each field
used only when non-empty; consequently every parsed article has a
non-empty GUID as long as generated random IDs are non-empty. -/
theorem normalizeGuid_cases (g l t : Option JStr) (u : JStr) :
    normalizeGuid { guid := g, link := l, title := t } u =
      (firstNonEmpty [g, l, t]).getD u := by
  rcases g with _ | g <;> rcases l with _ | l <;> rcases t with _ | t <;>
    simp only [normalizeGuid, jsOr, jsTruthy, firstNonEmpty,
      Bool.not_eq_true'] <;>
    split_ifs <;>
    simp_all [jsTruthy]

theorem normalizeGuid_ne_nil (it : RawFeedItem) (u : JStr) (hu : u ≠ []) :
    normalizeGuid it u ≠ [] := by
  rcases it with ⟨g, l, t⟩
  rw [normalizeGuid_cases]
  rcases g with _ | g <;> rcases l with _ | l <;> rcases t with _ | t <;>
    simp only [firstNonEmpty, jsTruthy, Bool.not_eq_true'] <;>
    split_ifs <;>
    simp_all [List.isEmpty_iff]

theorem fetchFeed_guid_priority (items : List RawFeedItem)
    (uuidAt : Nat → JStr) (huuid : ∀ i, uuidAt i ≠ []) :
    parsedFeedGuids items uuidAt =
      items.enum.map (fun p =>
        (firstNonEmpty [p.2.guid, p.2.link, p.2.title]).getD (uuidAt p.1)) ∧
    ∀ g ∈ parsedFeedGuids items uuidAt, g ≠ [] := by
  constructor
  · unfold parsedFeedGuids
    apply List.map_congr_left
    intro p _
    rcases hp : p.2 with ⟨g, l, t⟩
    rw [normalizeGuid_cases]
  · intro g hg
    unfold parsedFeedGuids at hg
    rcases List.mem_map.mp hg with ⟨p, _, hp⟩
    rw [← hp]
    exact normalizeGuid_ne_nil p.2 (uuidAt p.1) (huuid p.1)

/-- Witness for C9: a feed with one fully-empty item and one item with
only a link; every GUID is non-empty and priorities are respected. -/
theorem fetchFeed_guid_priority_witness :
    parsedFeedGuids
        [{ guid := none, link := none, title := none },
         { guid := some [], link := some ['l'], title := none }]
        (fun _ => ['u']) =
      [['u'], ['l']] ∧
    ∀ g ∈ parsedFeedGuids
        [{ guid := none, link := none, title := none },
         { guid := some [], link := some ['l'], title := none }]
        (fun _ => ['u']), g ≠ [] := by
  have h := fetchFeed_guid_priority
    [{ guid := none, link := none, title := none },
     { guid := some [], link := some ['l'], title := none }]
    (fun _ => ['u']) (by intro i; simp)
  refine ⟨?_, h.2⟩
  rw [h.1]
  decide

/- ============================================================== -/
/- C4 — src/server/epub-engine.ts, deduplicateChapterContent
   (lines 450-489), findCommonPrefix (494-510), findCommonSuffix
   (515-531): boilerplate detection and stripping.                  -/
/- ============================================================== -/

/-- One extracted chapter (`ExtractedChapter` in epub-engine.ts). -/
structure ExtractedChapter where
  index : Nat
  title : JStr
  content : JStr
  deriving DecidableEq

/-- JS `s.indexOf(pat)`: the first position at which `pat` occurs in
`s` (`none` models -1). -/
def jsIndexOfSub (s pat : JStr) : Option Nat :=
  (List.range (s.length + 1)).find? (fun i => List.isPrefixOf pat (s.drop i))

/-- JS `s.lastIndexOf(pat)`: the last position at which `pat` occurs
in `s` (`none` models -1). -/
def jsLastIndexOfSub (s pat : JStr) : Option Nat :=
  ((List.range (s.length + 1)).reverse).find?
    (fun i => List.isPrefixOf pat (s.drop i))

/-- The descending test loop of `findCommonPrefix` (epub-engine.ts
lines 500-507): try prefixes of `s0` of length `len`, `len - 50`, …
while `len ≥ 100`, returning the first one shared (`startsWith`) by at
least `minCount` of the strings, else `''`.  `fuel` only bounds the
iteration count; since `len` strictly decreases by 50 per step,
`len + 1` units always suffice. -/
def findCommonLeadGo (strings : List JStr) (s0 : JStr) (minCount : Nat) :
    Nat → Nat → JStr
  | 0, _ => []
  | fuel + 1, len =>
    if len < 100 then []
    else
      let testPre := s0.take len
      if minCount ≤ (strings.filter
          (fun s => List.isPrefixOf testPre s)).length then testPre
      else findCommonLeadGo strings s0 minCount fuel (len - 50)

/-- `findCommonPrefix(strings, minCount)` from epub-engine.ts: longest
prefix of `strings[0]`, tested from `min(strings[0].length, 2000)`
down to 100 in steps of 50, that at least `minCount` strings start
with. -/
def findCommonLead (strings : List JStr) (minCount : Nat) : JStr :=
  match strings with
  | [] => []
  | s0 :: _ =>
    findCommonLeadGo strings s0 minCount (min s0.length 2000 + 1)
      (min s0.length 2000)

/-- The descending test loop of `findCommonSuffix` (epub-engine.ts
lines 521-528), symmetric to `findCommonLeadGo` with `endsWith` and a
1500-character starting window. -/
def findCommonTailGo (strings : List JStr) (s0 : JStr) (minCount : Nat) :
    Nat → Nat → JStr
  | 0, _ => []
  | fuel + 1, len =>
    if len < 100 then []
    else
      let testSuf := s0.drop (s0.length - len)
      if minCount ≤ (strings.filter
          (fun s => List.isSuffixOf testSuf s)).length then testSuf
      else findCommonTailGo strings s0 minCount fuel (len - 50)

/-- `findCommonSuffix(strings, minCount)` from epub-engine.ts. -/
def findCommonTail (strings : List JStr) (minCount : Nat) : JStr :=
  match strings with
  | [] => []
  | s0 :: _ =>
    findCommonTailGo strings s0 minCount (min s0.length 1500 + 1)
      (min s0.length 1500)

/-- The per-chapter prefix strip of `deduplicateChapterContent`
(epub-engine.ts lines 468-474): remove `commonLead` only when it is
longer than 200 characters and occurs within the first 500 characters
of the chapter. -/
def stripLead (commonLead content : JStr) : JStr :=
  if 200 < commonLead.length then
    match jsIndexOfSub content commonLead with
    | some idx =>
      if idx < 500 then content.drop (idx + commonLead.length) else content
    | none => content
  else content

/-- The per-chapter suffix strip of `deduplicateChapterContent`
(epub-engine.ts lines 476-481): remove `commonTail` only when it is
longer than 200 characters and its last occurrence starts after
`content.length - 2000` (JS signed arithmetic, hence `Int`). -/
def stripTail (commonTail content : JStr) : JStr :=
  if 200 < commonTail.length then
    match jsLastIndexOfSub content commonTail with
    | some idx =>
      if (content.length : Int) - 2000 < (idx : Int) then content.take idx
      else content
    | none => content
  else content

/-- `deduplicateChapterContent` from epub-engine.ts: with fewer than 3
chapters return the input unchanged; otherwise detect a common lead
block among the first-2000-character windows (shared by at least
`Math.ceil(n * 0.5)` chapters) and a common tail block among the
last-1500-character windows, strip them under the `stripLead` /
`stripTail` guards, and trim each resulting chapter. -/
def deduplicateChapterContent (chapters : List ExtractedChapter) :
    List ExtractedChapter :=
  if chapters.length < 3 then chapters
  else
    let minCount := (chapters.length + 1) / 2
    let commonLead := findCommonLead
      (chapters.map (fun ch => ch.content.take 2000)) minCount
    let commonTail := findCommonTail
      (chapters.map (fun ch => ch.content.drop (ch.content.length - 1500)))
      minCount
    chapters.map (fun ch =>
      { ch with content := jsTrim (stripTail commonTail
          (stripLead commonLead ch.content)) })

theorem findCommonLeadGo_succ (strings : List JStr) (s0 : JStr)
    (minCount fuel len : Nat) :
    findCommonLeadGo strings s0 minCount (fuel + 1) len =
      if len < 100 then []
      else if minCount ≤ (strings.filter
          (fun s => List.isPrefixOf (s0.take len) s)).length then s0.take len
      else findCommonLeadGo strings s0 minCount fuel (len - 50) := rfl

theorem findCommonLeadGo_spec (strings : List JStr) (s0 : JStr)
    (minCount : Nat) (fuel : Nat) : ∀ len : Nat,
    findCommonLeadGo strings s0 minCount fuel len = [] ∨
    ∃ l, 100 ≤ l ∧ l ≤ len ∧
      findCommonLeadGo strings s0 minCount fuel len = s0.take l ∧
      minCount ≤ (strings.filter
        (fun s => List.isPrefixOf (s0.take l) s)).length := by
  induction fuel with
  | zero => intro len; left; rfl
  | succ fuel ih =>
    intro len
    rw [findCommonLeadGo_succ]
    by_cases h1 : len < 100
    · left; rw [if_pos h1]
    · rw [if_neg h1]
      by_cases h2 : minCount ≤ (strings.filter
          (fun s => List.isPrefixOf (s0.take len) s)).length
      · right
        exact ⟨len, by omega, le_refl len, by rw [if_pos h2], h2⟩
      · rw [if_neg h2]
        rcases ih (len - 50) with h | ⟨l, hl1, hl2, hl3, hl4⟩
        · left; exact h
        · right; exact ⟨l, hl1, by omega, hl3, hl4⟩

/-- The common-lead block is genuinely shared: when non-empty it is a
prefix of the first window of length between 100 and
`min (|window₀|, 2000)`, shared by at least `minCount` windows. -/
theorem findCommonLead_spec (strings : List JStr) (minCount : Nat) :
    findCommonLead strings minCount = [] ∨
    ∃ s0 rest, strings = s0 :: rest ∧
    ∃ l, 100 ≤ l ∧ l ≤ min s0.length 2000 ∧
      findCommonLead strings minCount = s0.take l ∧
      minCount ≤ (strings.filter
        (fun s => List.isPrefixOf (s0.take l) s)).length := by
  match strings with
  | [] => left; rfl
  | s0 :: rest =>
    rcases findCommonLeadGo_spec (s0 :: rest) s0 minCount
        (min s0.length 2000 + 1) (min s0.length 2000) with h | ⟨l, h1, h2, h3, h4⟩
    · left; exact h
    · right
      exact ⟨s0, rest, rfl, l, h1, h2, h3, h4⟩

theorem stripLead_insubstantial (commonLead content : JStr)
    (h : commonLead.length ≤ 200) : stripLead commonLead content = content := by
  unfold stripLead
  rw [if_neg (by omega)]

theorem stripTail_insubstantial (commonTail content : JStr)
    (h : commonTail.length ≤ 200) : stripTail commonTail content = content := by
  unfold stripTail
  rw [if_neg (by omega)]

/-- The lead block is removed only when it occurs within the first 500
characters: if every occurrence starts at or after position 500 (or
there is none), the chapter is left alone. -/
theorem stripLead_far_occurrence (commonLead content : JStr)
    (h : ∀ idx, jsIndexOfSub content commonLead = some idx → 500 ≤ idx) :
    stripLead commonLead content = content := by
  unfold stripLead
  by_cases h200 : 200 < commonLead.length
  · rw [if_pos h200]
    rcases hidx : jsIndexOfSub content commonLead with _ | idx
    · rfl
    · have := h idx hidx
      dsimp only
      rw [if_neg (by omega)]
  · rw [if_neg h200]

/-- The tail block is removed only when its last occurrence starts
after `content.length - 2000`: if the last occurrence starts at or
before that bound (or there is none), the chapter is left alone. -/
theorem stripTail_far_occurrence (commonTail content : JStr)
    (h : ∀ idx, jsLastIndexOfSub content commonTail = some idx →
      (idx : Int) ≤ (content.length : Int) - 2000) :
    stripTail commonTail content = content := by
  unfold stripTail
  by_cases h200 : 200 < commonTail.length
  · rw [if_pos h200]
    rcases hidx : jsLastIndexOfSub content commonTail with _ | idx
    · rfl
    · have := h idx hidx
      dsimp only
      rw [if_neg (by omega)]
  · rw [if_neg h200]

theorem repl_isPrefixOf_repl (c : Char) (d m : Nat) (h : d ≤ m) :
    List.isPrefixOf (List.replicate d c) (List.replicate m c) = true := by
  rw [List.isPrefixOf_iff_prefix, show m = d + (m - d) by omega,
    List.replicate_add]
  exact List.prefix_append _ _

theorem repl_not_isPrefixOf_repl (a b : Char) (d m : Nat) (hd : 1 ≤ d)
    (hm : 1 ≤ m) (hab : a ≠ b) :
    List.isPrefixOf (List.replicate d a) (List.replicate m b) = false := by
  rw [Bool.eq_false_iff]
  intro hpre
  rw [List.isPrefixOf_iff_prefix, show d = (d - 1) + 1 by omega,
    show m = (m - 1) + 1 by omega] at hpre
  rw [List.replicate_succ, List.replicate_succ] at hpre
  exact hab (List.cons_prefix_cons.mp hpre).1

theorem block_isPrefixOf_block (p c : Char) (n d m : Nat) (h : d ≤ m) :
    List.isPrefixOf (List.replicate n p ++ List.replicate d c)
      (List.replicate n p ++ List.replicate m c) = true := by
  rw [List.isPrefixOf_iff_prefix, List.prefix_append_right_inj,
    ← List.isPrefixOf_iff_prefix]
  exact repl_isPrefixOf_repl c d m h

theorem block_not_isPrefixOf_block (p a b : Char) (n d m : Nat) (hd : 1 ≤ d)
    (hm : 1 ≤ m) (hab : a ≠ b) :
    List.isPrefixOf (List.replicate n p ++ List.replicate d a)
      (List.replicate n p ++ List.replicate m b) = false := by
  rw [Bool.eq_false_iff]
  intro hpre
  rw [List.isPrefixOf_iff_prefix, List.prefix_append_right_inj,
    ← List.isPrefixOf_iff_prefix] at hpre
  rw [repl_not_isPrefixOf_repl a b d m hd hm hab] at hpre
  exact Bool.noConfusion hpre

theorem repl_isSuffixOf_repl (c : Char) (d m : Nat) (h : d ≤ m) :
    List.isSuffixOf (List.replicate d c) (List.replicate m c) = true := by
  rw [List.isSuffixOf_iff_suffix, show m = (m - d) + d by omega,
    List.replicate_add]
  exact List.suffix_append _ _

theorem repl_not_isSuffixOf_repl (a b : Char) (d m : Nat) (hd : 1 ≤ d)
    (hm : 1 ≤ m) (hab : a ≠ b) :
    List.isSuffixOf (List.replicate d a) (List.replicate m b) = false := by
  rw [Bool.eq_false_iff]
  intro hsuf
  rw [List.isSuffixOf_iff_suffix] at hsuf
  rw [← List.reverse_replicate d a, ← List.reverse_replicate m b,
    List.reverse_suffix, ← List.isPrefixOf_iff_prefix] at hsuf
  rw [repl_not_isPrefixOf_repl a b d m hd hm hab] at hsuf
  exact Bool.noConfusion hsuf

theorem dropWhile_repl_of_neg (p : Char → Bool) (c : Char) (n : Nat)
    (h : p c = false) :
    List.dropWhile p (List.replicate n c) = List.replicate n c := by
  cases n with
  | zero => rfl
  | succ n => rw [List.replicate_succ, List.dropWhile_cons, h]; simp

theorem jsTrim_repl_of_nonspace (c : Char) (n : Nat) (h : jsIsSpace c = false) :
    jsTrim (List.replicate n c) = List.replicate n c := by
  unfold jsTrim
  rw [dropWhile_repl_of_neg _ _ _ h, List.reverse_replicate,
    dropWhile_repl_of_neg _ _ _ h, List.reverse_replicate]

theorem isPrefixOf_append_self (l t : JStr) :
    List.isPrefixOf l (l ++ t) = true := by
  rw [List.isPrefixOf_iff_prefix]
  exact List.prefix_append _ _

/-- A synthetic chapter for the claim's 5-chapter scenario: a
500-character identical preamble (`'P'` repeated) followed by 1500
characters of chapter-unique content. -/
def exContent (c : Char) : JStr :=
  List.replicate 500 'P' ++ List.replicate 1500 c

def exChapter (i : Nat) (c : Char) : ExtractedChapter :=
  { index := i, title := [], content := exContent c }

def exChapters : List ExtractedChapter :=
  [exChapter 0 'a', exChapter 1 'b', exChapter 2 'c',
   exChapter 3 'd', exChapter 4 'e']

/-- The five first-2000-character windows of the example. -/
def exLeadList : List JStr :=
  [exContent 'a', exContent 'b', exContent 'c', exContent 'd', exContent 'e']

/-- The five last-1500-character windows of the example. -/
def exTailList : List JStr :=
  [List.replicate 1500 'a', List.replicate 1500 'b', List.replicate 1500 'c',
   List.replicate 1500 'd', List.replicate 1500 'e']

theorem filter_cons_true {α : Type} {p : α → Bool} {x : α} {xs : List α}
    (h : p x = true) : List.filter p (x :: xs) = x :: List.filter p xs := by
  rw [List.filter_cons, if_pos h]

theorem filter_cons_false {α : Type} {p : α → Bool} {x : α} {xs : List α}
    (h : p x = false) : List.filter p (x :: xs) = List.filter p xs := by
  rw [List.filter_cons, if_neg (by rw [h]; exact Bool.false_ne_true)]

theorem find?_cons_true {α : Type} {p : α → Bool} {x : α} {xs : List α}
    (h : p x = true) : List.find? p (x :: xs) = some x := by
  simp only [List.find?_cons, h]

theorem find?_cons_false {α : Type} {p : α → Bool} {x : α} {xs : List α}
    (h : p x = false) : List.find? p (x :: xs) = List.find? p xs := by
  simp only [List.find?_cons, h]

theorem exContent_length (c : Char) : (exContent c).length = 2000 := by
  unfold exContent
  rw [List.length_append, List.length_replicate, List.length_replicate]

theorem exContent_take_2000 (c : Char) : (exContent c).take 2000 = exContent c :=
  List.take_of_length_le (by rw [exContent_length])

theorem exContent_drop_500 (c : Char) :
    (exContent c).drop 500 = List.replicate 1500 c :=
  List.drop_left' (List.length_replicate 500 'P')

theorem exContent_take_500 (c : Char) :
    (exContent c).take 500 = List.replicate 500 'P' := by
  unfold exContent
  rw [List.take_append_eq_append_take, List.take_replicate,
    List.length_replicate]
  rw [show min 500 500 = 500 by norm_num, show (500 : Nat) - 500 = 0 by norm_num,
    List.take_zero, List.append_nil]

theorem exContent_take_mid (d : Nat) (hd : d ≤ 1500) :
    (exContent 'a').take (500 + d) =
      List.replicate 500 'P' ++ List.replicate d 'a' := by
  unfold exContent
  rw [List.take_append_eq_append_take,
    List.take_of_length_le (by rw [List.length_replicate]; omega),
    List.length_replicate]
  rw [show 500 + d - 500 = d by omega, List.take_replicate, min_eq_left hd]

theorem exLead_count_500 :
    (exLeadList.filter (fun s =>
      List.isPrefixOf ((exContent 'a').take 500) s)).length = 5 := by
  rw [exContent_take_500]
  have h : ∀ c : Char, List.isPrefixOf (List.replicate 500 'P')
      (exContent c) = true := by
    intro c
    unfold exContent
    exact isPrefixOf_append_self _ _
  rw [show exLeadList = [exContent 'a', exContent 'b', exContent 'c',
    exContent 'd', exContent 'e'] from rfl]
  rw [filter_cons_true (h 'a'), filter_cons_true (h 'b'),
    filter_cons_true (h 'c'), filter_cons_true (h 'd'),
    filter_cons_true (h 'e'), List.filter_nil]
  rfl

theorem exLead_count_high (d : Nat) (h1 : 1 ≤ d) (h2 : d ≤ 1500) :
    (exLeadList.filter (fun s =>
      List.isPrefixOf ((exContent 'a').take (500 + d)) s)).length = 1 := by
  rw [exContent_take_mid d h2]
  have ha : List.isPrefixOf
      (List.replicate 500 'P' ++ List.replicate d 'a') (exContent 'a') = true := by
    unfold exContent
    exact block_isPrefixOf_block 'P' 'a' 500 d 1500 h2
  have hne : ∀ c : Char, 'a' ≠ c → List.isPrefixOf
      (List.replicate 500 'P' ++ List.replicate d 'a') (exContent c) = false := by
    intro c hc
    unfold exContent
    exact block_not_isPrefixOf_block 'P' 'a' c 500 d 1500 h1 (by omega) hc
  rw [show exLeadList = [exContent 'a', exContent 'b', exContent 'c',
    exContent 'd', exContent 'e'] from rfl]
  rw [filter_cons_true ha, filter_cons_false (hne 'b' (by decide)),
    filter_cons_false (hne 'c' (by decide)),
    filter_cons_false (hne 'd' (by decide)),
    filter_cons_false (hne 'e' (by decide)), List.filter_nil]
  rfl

theorem exLeadLoop (fuel : Nat) : ∀ k : Nat, k ≤ 30 → k < fuel →
    findCommonLeadGo exLeadList (exContent 'a') 3 fuel (500 + 50 * k) =
      List.replicate 500 'P' := by
  induction fuel with
  | zero => intro k _ hk; omega
  | succ fuel ih =>
    intro k hk _
    rw [findCommonLeadGo_succ]
    cases k with
    | zero =>
      rw [if_neg (by norm_num)]
      rw [show 500 + 50 * 0 = 500 by norm_num]
      rw [if_pos (by rw [exLead_count_500]; omega)]
      exact exContent_take_500 'a'
    | succ j =>
      rw [if_neg (by omega)]
      rw [show 500 + 50 * (j + 1) = 500 + (50 * j + 50) by ring]
      rw [if_neg (by
        rw [exLead_count_high (50 * j + 50) (by omega) (by omega)]
        omega)]
      rw [show 500 + (50 * j + 50) - 50 = 500 + 50 * j by omega]
      exact ih j (by omega) (by omega)

theorem exCommonLead :
    findCommonLead exLeadList 3 = List.replicate 500 'P' := by
  have h : findCommonLead exLeadList 3 =
      findCommonLeadGo exLeadList (exContent 'a') 3
        (min (exContent 'a').length 2000 + 1)
        (min (exContent 'a').length 2000) := rfl
  rw [h, exContent_length]
  rw [show min 2000 2000 = 500 + 50 * 30 by norm_num]
  exact exLeadLoop (500 + 50 * 30 + 1) 30 (by norm_num) (by norm_num)

theorem findCommonTailGo_succ (strings : List JStr) (s0 : JStr)
    (minCount fuel len : Nat) :
    findCommonTailGo strings s0 minCount (fuel + 1) len =
      if len < 100 then []
      else if minCount ≤ (strings.filter
          (fun s => List.isSuffixOf (s0.drop (s0.length - len)) s)).length
        then s0.drop (s0.length - len)
      else findCommonTailGo strings s0 minCount fuel (len - 50) := rfl

theorem findCommonTailGo_spec (strings : List JStr) (s0 : JStr)
    (minCount : Nat) (fuel : Nat) : ∀ len : Nat,
    findCommonTailGo strings s0 minCount fuel len = [] ∨
    ∃ l, 100 ≤ l ∧ l ≤ len ∧
      findCommonTailGo strings s0 minCount fuel len =
        s0.drop (s0.length - l) ∧
      minCount ≤ (strings.filter
        (fun s => List.isSuffixOf (s0.drop (s0.length - l)) s)).length := by
  induction fuel with
  | zero => intro len; left; rfl
  | succ fuel ih =>
    intro len
    rw [findCommonTailGo_succ]
    by_cases h1 : len < 100
    · left; rw [if_pos h1]
    · rw [if_neg h1]
      by_cases h2 : minCount ≤ (strings.filter
          (fun s => List.isSuffixOf (s0.drop (s0.length - len)) s)).length
      · right
        exact ⟨len, by omega, le_refl len, by rw [if_pos h2], h2⟩
      · rw [if_neg h2]
        rcases ih (len - 50) with h | ⟨l, hl1, hl2, hl3, hl4⟩
        · left; exact h
        · right; exact ⟨l, hl1, by omega, hl3, hl4⟩

/-- The common-tail block is genuinely shared: when non-empty it is a
suffix (the last `l` characters) of the first window, with `l` between
100 and `min (|window₀|, 1500)`, shared (`endsWith`) by at least
`minCount` windows. -/
theorem findCommonTail_spec (strings : List JStr) (minCount : Nat) :
    findCommonTail strings minCount = [] ∨
    ∃ s0 rest, strings = s0 :: rest ∧
    ∃ l, 100 ≤ l ∧ l ≤ min s0.length 1500 ∧
      findCommonTail strings minCount = s0.drop (s0.length - l) ∧
      minCount ≤ (strings.filter
        (fun s => List.isSuffixOf (s0.drop (s0.length - l)) s)).length := by
  match strings with
  | [] => left; rfl
  | s0 :: rest =>
    rcases findCommonTailGo_spec (s0 :: rest) s0 minCount
        (min s0.length 1500 + 1) (min s0.length 1500)
      with h | ⟨l, h1, h2, h3, h4⟩
    · left; exact h
    · right
      exact ⟨s0, rest, rfl, l, h1, h2, h3, h4⟩

theorem exTail_count (len : Nat) (h1 : 1 ≤ len) (h2 : len ≤ 1500) :
    (exTailList.filter (fun s => List.isSuffixOf
      ((List.replicate 1500 'a').drop
        ((List.replicate 1500 'a').length - len)) s)).length = 1 := by
  rw [List.length_replicate, List.drop_replicate,
    show 1500 - (1500 - len) = len by omega]
  have ha : List.isSuffixOf (List.replicate len 'a')
      (List.replicate 1500 'a') = true := repl_isSuffixOf_repl 'a' len 1500 h2
  have hne : ∀ c : Char, 'a' ≠ c → List.isSuffixOf (List.replicate len 'a')
      (List.replicate 1500 c) = false := by
    intro c hc
    exact repl_not_isSuffixOf_repl 'a' c len 1500 h1 (by omega) hc
  rw [show exTailList = [List.replicate 1500 'a', List.replicate 1500 'b',
    List.replicate 1500 'c', List.replicate 1500 'd',
    List.replicate 1500 'e'] from rfl]
  rw [filter_cons_true ha, filter_cons_false (hne 'b' (by decide)),
    filter_cons_false (hne 'c' (by decide)),
    filter_cons_false (hne 'd' (by decide)),
    filter_cons_false (hne 'e' (by decide)), List.filter_nil]
  rfl

theorem exTailLoop (fuel : Nat) : ∀ len : Nat, len ≤ 1500 →
    findCommonTailGo exTailList (List.replicate 1500 'a') 3 fuel len = [] := by
  induction fuel with
  | zero => intro len _; rfl
  | succ fuel ih =>
    intro len hlen
    rw [findCommonTailGo_succ]
    by_cases h100 : len < 100
    · rw [if_pos h100]
    · rw [if_neg h100]
      rw [if_neg (by
        rw [exTail_count len (by omega) hlen]
        omega)]
      exact ih (len - 50) (by omega)

theorem exCommonTail : findCommonTail exTailList 3 = [] := by
  have h : findCommonTail exTailList 3 =
      findCommonTailGo exTailList (List.replicate 1500 'a') 3
        (min (List.replicate 1500 'a').length 1500 + 1)
        (min (List.replicate 1500 'a').length 1500) := rfl
  rw [h, List.length_replicate]
  exact exTailLoop _ _ (by omega)

theorem exIndexOfSub (c : Char) :
    jsIndexOfSub (exContent c) (List.replicate 500 'P') = some 0 := by
  unfold jsIndexOfSub
  rw [exContent_length, List.range_succ_eq_map]
  have h0 : List.isPrefixOf (List.replicate 500 'P')
      ((exContent c).drop 0) = true := by
    rw [List.drop_zero]
    unfold exContent
    exact isPrefixOf_append_self _ _
  simp only [List.find?_cons, h0]

theorem exStripLead (c : Char) :
    stripLead (List.replicate 500 'P') (exContent c) =
      List.replicate 1500 c := by
  unfold stripLead
  rw [if_pos (by rw [List.length_replicate]; omega)]
  rw [exIndexOfSub]
  dsimp only
  rw [if_pos (by norm_num)]
  rw [List.length_replicate, show 0 + 500 = 500 by norm_num]
  exact exContent_drop_500 c

/-- The claim's 5-chapter scenario resolves exactly as stated: the
500-character shared preamble (and nothing else) is stripped from
every chapter. -/
theorem dedup_example :
    deduplicateChapterContent exChapters =
      [{ index := 0, title := [], content := List.replicate 1500 'a' },
       { index := 1, title := [], content := List.replicate 1500 'b' },
       { index := 2, title := [], content := List.replicate 1500 'c' },
       { index := 3, title := [], content := List.replicate 1500 'd' },
       { index := 4, title := [], content := List.replicate 1500 'e' }] := by
  have hwins : exChapters.map (fun ch => ch.content.take 2000) = exLeadList := by
    rw [show exChapters = [exChapter 0 'a', exChapter 1 'b', exChapter 2 'c',
      exChapter 3 'd', exChapter 4 'e'] from rfl]
    rw [List.map_cons, List.map_cons, List.map_cons, List.map_cons,
      List.map_cons, List.map_nil]
    show [(exContent 'a').take 2000, (exContent 'b').take 2000,
      (exContent 'c').take 2000, (exContent 'd').take 2000,
      (exContent 'e').take 2000] = exLeadList
    rw [exContent_take_2000, exContent_take_2000, exContent_take_2000,
      exContent_take_2000, exContent_take_2000]
    rfl
  have htails : exChapters.map
      (fun ch => ch.content.drop (ch.content.length - 1500)) = exTailList := by
    rw [show exChapters = [exChapter 0 'a', exChapter 1 'b', exChapter 2 'c',
      exChapter 3 'd', exChapter 4 'e'] from rfl]
    rw [List.map_cons, List.map_cons, List.map_cons, List.map_cons,
      List.map_cons, List.map_nil]
    have hone : ∀ c : Char,
        (exContent c).drop ((exContent c).length - 1500) =
          List.replicate 1500 c := by
      intro c
      rw [exContent_length, show (2000 : Nat) - 1500 = 500 by norm_num,
        exContent_drop_500]
    dsimp only [exChapter]
    rw [hone 'a', hone 'b', hone 'c', hone 'd', hone 'e']
    rfl
  have hstrip : ∀ c : Char, jsIsSpace c = false →
      jsTrim (stripTail [] (stripLead (List.replicate 500 'P')
        (exContent c))) = List.replicate 1500 c := by
    intro c hc
    rw [stripTail_insubstantial [] _ (by rw [List.length_nil]; omega),
      exStripLead, jsTrim_repl_of_nonspace c 1500 hc]
  unfold deduplicateChapterContent
  rw [if_neg (by rw [show exChapters.length = 5 from rfl]; omega)]
  dsimp only
  rw [hwins, htails]
  rw [show (exChapters.length + 1) / 2 = 3 from by
    rw [show exChapters.length = 5 from rfl]]
  rw [exCommonLead, exCommonTail]
  rw [show exChapters = [exChapter 0 'a', exChapter 1 'b', exChapter 2 'c',
    exChapter 3 'd', exChapter 4 'e'] from rfl]
  rw [List.map_cons, List.map_cons, List.map_cons, List.map_cons,
    List.map_cons, List.map_nil]
  show ([{ index := 0, title := [], content := jsTrim (stripTail []
      (stripLead (List.replicate 500 'P') (exContent 'a'))) },
    { index := 1, title := [], content := jsTrim (stripTail []
      (stripLead (List.replicate 500 'P') (exContent 'b'))) },
    { index := 2, title := [], content := jsTrim (stripTail []
      (stripLead (List.replicate 500 'P') (exContent 'c'))) },
    { index := 3, title := [], content := jsTrim (stripTail []
      (stripLead (List.replicate 500 'P') (exContent 'd'))) },
    { index := 4, title := [], content := jsTrim (stripTail []
      (stripLead (List.replicate 500 'P') (exContent 'e'))) }] :
      List ExtractedChapter) = _
  rw [hstrip 'a' (by decide), hstrip 'b' (by decide), hstrip 'c' (by decide),
    hstrip 'd' (by decide), hstrip 'e' (by decide)]

/-- Deduplication never reorders, drops, re-indexes or re-titles
chapters: it only rewrites contents. -/
theorem dedup_preserves_structure (chapters : List ExtractedChapter) :
    (deduplicateChapterContent chapters).map (fun ch => (ch.index, ch.title)) =
      chapters.map (fun ch => (ch.index, ch.title)) := by
  unfold deduplicateChapterContent
  by_cases h3 : chapters.length < 3
  · rw [if_pos h3]
  · rw [if_neg h3]
    dsimp only
    rw [List.map_map]
    exact List.map_congr_left (fun ch _ => rfl)

/-- Without a substantial (> 200 characters) shared block, nothing is
stripped: each chapter keeps its content, merely trimmed. -/
theorem dedup_no_strip (chapters : List ExtractedChapter)
    (h3 : ¬ chapters.length < 3)
    (hl : (findCommonLead (chapters.map (fun ch => ch.content.take 2000))
      ((chapters.length + 1) / 2)).length ≤ 200)
    (ht : (findCommonTail (chapters.map
        (fun ch => ch.content.drop (ch.content.length - 1500)))
      ((chapters.length + 1) / 2)).length ≤ 200) :
    deduplicateChapterContent chapters =
      chapters.map (fun ch => { ch with content := jsTrim ch.content }) := by
  unfold deduplicateChapterContent
  rw [if_neg h3]
  dsimp only
  exact List.map_congr_left (fun ch _ => by
    rw [stripLead_insubstantial _ _ hl, stripTail_insubstantial _ _ ht])

/-- **C4.** The deduplication pass: (1) returns its input unchanged
below 3 chapters; (2) never drops or re-indexes chapters; (3) any
candidate common-prefix block it finds is an actual prefix of the
first chapter's 2000-character window, of length between 100 and 2000,
shared (`startsWith`) by at least `⌈n/2⌉` of the windows — the tested
lengths shrink in steps of 50; (4) analogously, any candidate
common-suffix block it finds is an actual suffix (the last `l`
characters, 100 ≤ `l` ≤ 1500) of the first chapter's trailing
1500-character window, shared (`endsWith`) by at least `⌈n/2⌉` of the
windows; (5) a prefix block is stripped from a chapter only where it
occurs within the first 500 characters; (6) a suffix block is stripped
only when its last occurrence starts after `content.length - 2000`
(the near-end condition); (7) a prefix block of at most 200 characters
is never stripped, and (8) neither is a suffix block of at most 200
characters — each of (7) and (8) independently of the other side; (9)
with no shared block longer than 200 characters nothing is stripped at
all; and (10) for 5 chapters sharing an identical 500-character
preamble, exactly that preamble is removed from every chapter, leaving
the chapter-unique content. -/
theorem dedup_boilerplate_correct :
    (∀ chapters : List ExtractedChapter, chapters.length < 3 →
      deduplicateChapterContent chapters = chapters) ∧
    (∀ chapters : List ExtractedChapter,
      (deduplicateChapterContent chapters).map
        (fun ch => (ch.index, ch.title)) =
        chapters.map (fun ch => (ch.index, ch.title))) ∧
    (∀ strings : List JStr, ∀ minCount : Nat,
      findCommonLead strings minCount = [] ∨
      ∃ s0 rest, strings = s0 :: rest ∧
      ∃ l, 100 ≤ l ∧ l ≤ min s0.length 2000 ∧
        findCommonLead strings minCount = s0.take l ∧
        minCount ≤ (strings.filter
          (fun s => List.isPrefixOf (s0.take l) s)).length) ∧
    (∀ strings : List JStr, ∀ minCount : Nat,
      findCommonTail strings minCount = [] ∨
      ∃ s0 rest, strings = s0 :: rest ∧
      ∃ l, 100 ≤ l ∧ l ≤ min s0.length 1500 ∧
        findCommonTail strings minCount = s0.drop (s0.length - l) ∧
        minCount ≤ (strings.filter
          (fun s => List.isSuffixOf (s0.drop (s0.length - l)) s)).length) ∧
    (∀ commonLead content : JStr,
      (∀ idx, jsIndexOfSub content commonLead = some idx → 500 ≤ idx) →
      stripLead commonLead content = content) ∧
    (∀ commonTail content : JStr,
      (∀ idx, jsLastIndexOfSub content commonTail = some idx →
        (idx : Int) ≤ (content.length : Int) - 2000) →
      stripTail commonTail content = content) ∧
    (∀ commonLead content : JStr, commonLead.length ≤ 200 →
      stripLead commonLead content = content) ∧
    (∀ commonTail content : JStr, commonTail.length ≤ 200 →
      stripTail commonTail content = content) ∧
    (∀ chapters : List ExtractedChapter, ¬ chapters.length < 3 →
      (findCommonLead (chapters.map (fun ch => ch.content.take 2000))
        ((chapters.length + 1) / 2)).length ≤ 200 →
      (findCommonTail (chapters.map
          (fun ch => ch.content.drop (ch.content.length - 1500)))
        ((chapters.length + 1) / 2)).length ≤ 200 →
      deduplicateChapterContent chapters =
        chapters.map (fun ch => { ch with content := jsTrim ch.content })) ∧
    deduplicateChapterContent exChapters =
      [{ index := 0, title := [], content := List.replicate 1500 'a' },
       { index := 1, title := [], content := List.replicate 1500 'b' },
       { index := 2, title := [], content := List.replicate 1500 'c' },
       { index := 3, title := [], content := List.replicate 1500 'd' },
       { index := 4, title := [], content := List.replicate 1500 'e' }] := by
  refine ⟨?_, dedup_preserves_structure, findCommonLead_spec,
    findCommonTail_spec, stripLead_far_occurrence, stripTail_far_occurrence,
    stripLead_insubstantial, stripTail_insubstantial,
    dedup_no_strip, dedup_example⟩
  intro chapters h3
  unfold deduplicateChapterContent
  rw [if_pos h3]

/-- Witness for C4: two one-character chapters are below the 3-chapter
threshold, so deduplication leaves them untouched. -/
theorem dedup_boilerplate_correct_witness :
    deduplicateChapterContent
      [{ index := 0, title := [], content := ['x'] },
       { index := 1, title := [], content := ['y'] }] =
      [{ index := 0, title := [], content := ['x'] },
       { index := 1, title := [], content := ['y'] }] :=
  dedup_boilerplate_correct.1
    [{ index := 0, title := [], content := ['x'] },
     { index := 1, title := [], content := ['y'] }] (by decide)

/- ============================================================== -/
/- C10 — epub-engine.ts extractBookText (lines 401-444), pdf-engine.ts
   extractPdfText (lines 321-362), indexing.ts readChapter (223-248):
   empty structural units are silently omitted; readChapter resolves a
   chapter by its stored `index` field, not by list position.       -/
/- ============================================================== -/

/-- One iteration of the `extractBookText` loop (epub-engine.ts lines
408-433) for page `i` of the spine: `p.1` is the page index, `p.2.1`
the page title, `p.2.2` the plain text obtained from `getChapter` +
`stripHtml` (`none` when `getChapter` threw — the chapter is logged
and skipped).  A chapter record is produced only when the trimmed text
is non-empty, and it carries the page position `i` as its `index`. -/
def epubChapterOf (p : Nat × (JStr × Option JStr)) : Option ExtractedChapter :=
  match p.2.2 with
  | none => none
  | some text =>
    if (jsTrim text).isEmpty then none
    else some { index := p.1, title := p.2.1, content := text }

/-- The `rawChapters` accumulation loop of `extractBookText`: pushes
the produced chapter when there is one (appending zero-or-one
elements models `rawChapters.push(...)` under the guard). -/
def epubRawChapters (pages : List (JStr × Option JStr)) :
    List ExtractedChapter :=
  pages.enum.foldl (fun acc p => acc ++ (epubChapterOf p).toList) []

/-- `extractBookText`'s chapter list: the raw per-page extraction
followed by the deduplication pass (epub-engine.ts line 436). -/
def extractBookTextChapters (pages : List (JStr × Option JStr)) :
    List ExtractedChapter :=
  deduplicateChapterContent (epubRawChapters pages)

/-- One iteration of the `extractPdfText` loop (pdf-engine.ts lines
336-354) for the page at 0-based list position `p.1` (1-based page
number `p.1 + 1`): `p.2` is the extracted page text (`none` when
`getPage`/`getTextContent` threw).  The chapter keeps
`index = pageNum - 1` and is titled from the TOC's page-number map
with a `Page N` fallback. -/
def pdfChapterOf (pageToTitle : Nat → Option JStr) (p : Nat × Option JStr) :
    Option ExtractedChapter :=
  match p.2 with
  | none => none
  | some text =>
    if (jsTrim text).isEmpty then none
    else some
      { index := p.1
        title := (jsOr (pageToTitle (p.1 + 1))
          (some (("Page ".toList) ++ natChars (p.1 + 1)))).getD []
        content := text }

/-- The chapter accumulation loop of `extractPdfText`. -/
def pdfRawChapters (pageTexts : List (Option JStr))
    (pageToTitle : Nat → Option JStr) : List ExtractedChapter :=
  pageTexts.enum.foldl (fun acc p =>
    acc ++ (pdfChapterOf pageToTitle p).toList) []

/-- `readChapter`'s chapter resolution (indexing.ts line 237):
`extracted.chapters.find((ch) => ch.index === args.chapterIndex)` —
lookup by the stored `index` field, not by list position. -/
def findChapterByIndex (chapters : List ExtractedChapter) (i : Nat) :
    Option ExtractedChapter :=
  chapters.find? (fun ch => ch.index == i)

theorem foldl_push_eq_filterMap {α β : Type} (f : α → Option β) :
    ∀ (l : List α) (acc : List β),
    l.foldl (fun acc x => acc ++ (f x).toList) acc = acc ++ l.filterMap f := by
  intro l
  induction l with
  | nil => intro acc; rw [List.foldl_nil, List.filterMap_nil, List.append_nil]
  | cons x xs ih =>
    intro acc
    rw [List.foldl_cons, List.filterMap_cons]
    rcases hx : f x with _ | b
    · rw [ih]
      simp
    · rw [ih]
      simp

theorem epubRawChapters_eq (pages : List (JStr × Option JStr)) :
    epubRawChapters pages = pages.enum.filterMap epubChapterOf := by
  unfold epubRawChapters
  rw [foldl_push_eq_filterMap epubChapterOf pages.enum []]
  rfl

theorem pdfRawChapters_eq (pageTexts : List (Option JStr))
    (pageToTitle : Nat → Option JStr) :
    pdfRawChapters pageTexts pageToTitle =
      pageTexts.enum.filterMap (pdfChapterOf pageToTitle) := by
  unfold pdfRawChapters
  rw [foldl_push_eq_filterMap (pdfChapterOf pageToTitle) pageTexts.enum []]
  rfl

theorem epubChapterOf_some (p : Nat × (JStr × Option JStr))
    (ch : ExtractedChapter) (h : epubChapterOf p = some ch) :
    p.1 = ch.index ∧ p.2.1 = ch.title ∧ p.2.2 = some ch.content ∧
      jsTrim ch.content ≠ [] := by
  unfold epubChapterOf at h
  rcases hp : p.2.2 with _ | text
  · rw [hp] at h
    exact Option.noConfusion h
  · rw [hp] at h
    dsimp only at h
    by_cases he : (jsTrim text).isEmpty
    · rw [if_pos he] at h
      exact Option.noConfusion h
    · rw [if_neg he] at h
      have hch := Option.some.inj h
      refine ⟨?_, ?_, ?_, ?_⟩
      · rw [← hch]
      · rw [← hch]
      · rw [← hch]
      · rw [← hch]
        simpa [List.isEmpty_iff] using he

theorem pdfChapterOf_some (pageToTitle : Nat → Option JStr)
    (p : Nat × Option JStr) (ch : ExtractedChapter)
    (h : pdfChapterOf pageToTitle p = some ch) :
    p.1 = ch.index ∧ p.2 = some ch.content ∧ jsTrim ch.content ≠ [] := by
  unfold pdfChapterOf at h
  rcases hp : p.2 with _ | text
  · rw [hp] at h
    exact Option.noConfusion h
  · rw [hp] at h
    dsimp only at h
    by_cases he : (jsTrim text).isEmpty
    · rw [if_pos he] at h
      exact Option.noConfusion h
    · rw [if_neg he] at h
      have hch := Option.some.inj h
      refine ⟨?_, ?_, ?_⟩
      · rw [← hch]
      · rw [← hch]
      · rw [← hch]
        simpa [List.isEmpty_iff] using he

/-- **C10.** Text extraction silently omits every structural unit whose
plain text is empty or whitespace-only, while each retained chapter
keeps its original structural index (EPUB page position / PDF page
number minus 1): every extracted EPUB chapter traces back to the page
at list position `index` with exactly that title and text, and every
page with non-whitespace text is represented; the same holds for PDF
pages.  `readChapter` resolves a chapter by its stored `index` field;
consequently (concrete instance) a 3-page book whose middle page is
whitespace-only yields 2 chapters with the non-contiguous indices
0 and 2, and requesting chapter 1 — below the chapterCount of 3 —
reports chapter-not-found. -/
theorem extraction_omits_empty_units :
    (∀ (pages : List (JStr × Option JStr)) (ch : ExtractedChapter),
      ch ∈ epubRawChapters pages →
      pages[ch.index]? = some (ch.title, some ch.content) ∧
        jsTrim ch.content ≠ []) ∧
    (∀ (pages : List (JStr × Option JStr)) (i : Nat) (ti : JStr) (t : JStr),
      pages[i]? = some (ti, some t) → jsTrim t ≠ [] →
      ∃ ch ∈ epubRawChapters pages,
        ch.index = i ∧ ch.title = ti ∧ ch.content = t) ∧
    (∀ (pageTexts : List (Option JStr)) (pageToTitle : Nat → Option JStr)
      (ch : ExtractedChapter), ch ∈ pdfRawChapters pageTexts pageToTitle →
      pageTexts[ch.index]? = some (some ch.content) ∧
        jsTrim ch.content ≠ []) ∧
    (∀ (chapters : List ExtractedChapter) (i : Nat) (ch : ExtractedChapter),
      findChapterByIndex chapters i = some ch → ch.index = i) ∧
    (extractBookTextChapters
        [(['A'], some ['a']), (['B'], some [' ']), (['C'], some ['b'])] =
      [{ index := 0, title := ['A'], content := ['a'] },
       { index := 2, title := ['C'], content := ['b'] }] ∧
      [(['A'], some ['a']), (['B'], some [' ']),
        (['C'], some ['b'])].length = 3 ∧
      findChapterByIndex (extractBookTextChapters
        [(['A'], some ['a']), (['B'], some [' ']), (['C'], some ['b'])]) 1 =
        none) := by
  refine ⟨?_, ?_, ?_, ?_, ?_⟩
  · intro pages ch hch
    rw [epubRawChapters_eq] at hch
    rcases List.mem_filterMap.mp hch with ⟨p, hpmem, hpeq⟩
    obtain ⟨h1, h2, h3, h4⟩ := epubChapterOf_some p ch hpeq
    rcases p with ⟨i, ti, txt⟩
    have := List.mk_mem_enum_iff_getElem?.mp hpmem
    simp only at h1 h2 h3
    rw [← h1, this]
    refine ⟨?_, h4⟩
    rw [h2, h3]
  · intro pages i ti t hget htrim
    refine ⟨{ index := i, title := ti, content := t }, ?_, rfl, rfl, rfl⟩
    rw [epubRawChapters_eq]
    apply List.mem_filterMap.mpr
    refine ⟨(i, (ti, some t)), ?_, ?_⟩
    · exact List.mk_mem_enum_iff_getElem?.mpr hget
    · unfold epubChapterOf
      dsimp only
      rw [if_neg (by simpa [List.isEmpty_iff] using htrim)]
  · intro pageTexts pageToTitle ch hch
    rw [pdfRawChapters_eq] at hch
    rcases List.mem_filterMap.mp hch with ⟨p, hpmem, hpeq⟩
    obtain ⟨h1, h2, h3⟩ := pdfChapterOf_some pageToTitle p ch hpeq
    rcases p with ⟨i, txt⟩
    have := List.mk_mem_enum_iff_getElem?.mp hpmem
    simp only at h1 h2
    rw [← h1, this]
    exact ⟨by rw [h2], h3⟩
  · intro chapters i ch hfind
    have := List.find?_some hfind
    simpa using this
  · refine ⟨by decide, by decide, by decide⟩

/-- Witness for C10: instantiate the soundness conjunct at the concrete
3-page book — its first extracted chapter is page 0 with text "a". -/
theorem extraction_omits_empty_units_witness :
    ([(['A'], some ['a']), (['B'], some [' ']),
        (['C'], some ['b'])] : List (JStr × Option JStr))[
      ({ index := 0, title := ['A'], content := ['a'] } :
        ExtractedChapter).index]? =
      some (['A'], some ['a']) ∧
    jsTrim (['a'] : JStr) ≠ [] :=
  extraction_omits_empty_units.1
    [(['A'], some ['a']), (['B'], some [' ']), (['C'], some ['b'])]
    { index := 0, title := ['A'], content := ['a'] } (by decide)

/- ============================================================== -/
/- C8 — src/server/pdf-engine.ts, extractOutline (lines 148-211):
   fault-tolerant flattening of the PDF bookmark tree.              -/
/- ============================================================== -/

/-- One TOC entry produced by `extractOutline` (`PdfTocItem`). -/
structure PdfTocEntry where
  title : JStr
  pageNumber : Nat
  level : Nat
  deriving DecidableEq

/-- A PDF outline node: `{title, dest, children}`.  `dest` is the
destination (named reference or direct array), abstracted to a key for
the resolver. -/
inductive OutlineNode where
  | node (title : Option JStr) (dest : Option JStr) (children : List OutlineNode)

/-- The destination-to-page logic of one outline item (pdf-engine.ts
lines 163-184): `pageNumber` starts at 1; a truthy `dest` is resolved
through the document (`getDestination` + `getPageIndex`, abstracted as
`resolve`, with `none` standing for a null lookup, a non-page result,
or a thrown error — the `catch` keeps the default); a successful
resolution yields the 1-based `pageIndex + 1`. -/
def outlinePageNumber (resolve : JStr → Option Nat) (dest : Option JStr) :
    Nat :=
  match dest with
  | none => 1
  | some d =>
    if d.isEmpty then 1
    else
      match resolve d with
      | some pageIndex => pageIndex + 1
      | none => 1

/-- `processOutlineItems` (pdf-engine.ts lines 158-200): walk the
outline forest in preorder, pushing one entry per node (title falling
back to `Section ${toc.length + 1}`) and recursing into `item.items`
at `level + 1`.  `acc` is the number of entries pushed so far
(`toc.length`); the second component returns the updated count. -/
def flattenOutlineForest (resolve : JStr → Option Nat) :
    List OutlineNode → Nat → Nat → List PdfTocEntry × Nat
  | [], _, acc => ([], acc)
  | OutlineNode.node title dest children :: rest, level, acc =>
    let entry : PdfTocEntry :=
      { title := (jsOr title
          (some (("Section ".toList) ++ natChars (acc + 1)))).getD []
        pageNumber := outlinePageNumber resolve dest
        level := level }
    let sub := flattenOutlineForest resolve children (level + 1) (acc + 1)
    let tail := flattenOutlineForest resolve rest level sub.2
    (entry :: (sub.1 ++ tail.1), tail.2)

/-- `extractOutline` on a parsed outline forest. -/
def extractOutlineToc (resolve : JStr → Option Nat)
    (outline : List OutlineNode) : List PdfTocEntry :=
  (flattenOutlineForest resolve outline 0 0).1

/-- Number of nodes of an outline forest. -/
def outlineCount : List OutlineNode → Nat
  | [] => 0
  | OutlineNode.node _ _ children :: rest =>
    1 + outlineCount children + outlineCount rest

/-- From the claim: the expected `(pageNumber, level)` sequence — every
node is emitted in preorder, with the resolver-derived 1-based page
number (default 1) and a nesting level that grows by 1 per tree
depth. -/
def claimOutlineSpec (resolve : JStr → Option Nat) :
    List OutlineNode → Nat → List (Nat × Nat)
  | [], _ => []
  | OutlineNode.node _ dest children :: rest, level =>
    (outlinePageNumber resolve dest, level) ::
      (claimOutlineSpec resolve children (level + 1) ++
        claimOutlineSpec resolve rest level)

theorem flattenOutlineForest_spec (resolve : JStr → Option Nat) :
    ∀ (ns : List OutlineNode) (level acc : Nat),
    (flattenOutlineForest resolve ns level acc).1.map
        (fun e => (e.pageNumber, e.level)) =
      claimOutlineSpec resolve ns level ∧
    (flattenOutlineForest resolve ns level acc).2 = acc + outlineCount ns := by
  refine flattenOutlineForest.induct resolve
    (fun ns level acc =>
      (flattenOutlineForest resolve ns level acc).1.map
          (fun e => (e.pageNumber, e.level)) =
        claimOutlineSpec resolve ns level ∧
      (flattenOutlineForest resolve ns level acc).2 = acc + outlineCount ns)
    ?_ ?_
  · intro level acc
    constructor
    · simp only [flattenOutlineForest, claimOutlineSpec, List.map_nil]
    · simp only [flattenOutlineForest, outlineCount]
      omega
  · intro title dest children rest level acc sub ihc ihr
    simp only [flattenOutlineForest, claimOutlineSpec, outlineCount] at *
    constructor
    · rw [List.map_cons, List.map_append, ihc.1, ihr.1]
    · rw [ihr.2, ihc.2]
      omega

theorem outlinePageNumber_pos (resolve : JStr → Option Nat)
    (dest : Option JStr) : 1 ≤ outlinePageNumber resolve dest := by
  unfold outlinePageNumber
  rcases dest with _ | d
  · dsimp only
    omega
  · dsimp only
    by_cases he : d.isEmpty
    · rw [if_pos he]
    · rw [if_neg he]
      rcases hr : resolve d with _ | i <;> dsimp only <;> omega

theorem claimOutlineSpec_pos (resolve : JStr → Option Nat) :
    ∀ (ns : List OutlineNode) (level : Nat),
    ∀ p ∈ claimOutlineSpec resolve ns level, 1 ≤ p.1 := by
  refine claimOutlineSpec.induct resolve
    (fun ns level => ∀ p ∈ claimOutlineSpec resolve ns level, 1 ≤ p.1) ?_ ?_
  · intro level p hp
    simp [claimOutlineSpec] at hp
  · intro title dest children rest level ihc ihr p hp
    simp only [claimOutlineSpec, List.mem_cons, List.mem_append] at hp
    rcases hp with hp | hp | hp
    · rw [hp]
      exact outlinePageNumber_pos resolve dest
    · exact ihc p hp
    · exact ihr p hp

theorem claimOutlineSpec_length (resolve : JStr → Option Nat) :
    ∀ (ns : List OutlineNode) (level : Nat),
    (claimOutlineSpec resolve ns level).length = outlineCount ns := by
  refine claimOutlineSpec.induct resolve
    (fun ns level =>
      (claimOutlineSpec resolve ns level).length = outlineCount ns) ?_ ?_
  · intro level
    simp [claimOutlineSpec, outlineCount]
  · intro title dest children rest level ihc ihr
    simp only [claimOutlineSpec, outlineCount, List.length_cons,
      List.length_append, ihc, ihr]
    omega

/-- **C8.** PDF outline extraction never loses a bookmark: the
flattened TOC has exactly one entry per outline node, its
`(pageNumber, level)` sequence is the claim-side preorder
specification (in which the nesting level grows by 1 per tree depth),
an unresolvable destination (failed lookup or thrown error) yields
page 1 instead of failing the outline, a resolvable destination yields
the 1-based number of the referenced page, and every emitted page
number is at least 1. -/
theorem pdf_outline_fault_tolerant :
    (∀ (resolve : JStr → Option Nat) (outline : List OutlineNode),
      (extractOutlineToc resolve outline).length = outlineCount outline) ∧
    (∀ (resolve : JStr → Option Nat) (outline : List OutlineNode),
      (extractOutlineToc resolve outline).map
        (fun e => (e.pageNumber, e.level)) = claimOutlineSpec resolve outline 0) ∧
    (∀ (resolve : JStr → Option Nat) (d : JStr), resolve d = none →
      outlinePageNumber resolve (some d) = 1) ∧
    (∀ (resolve : JStr → Option Nat) (d : JStr) (i : Nat), resolve d = some i →
      ¬ d.isEmpty = true → outlinePageNumber resolve (some d) = i + 1) ∧
    (∀ resolve : JStr → Option Nat, outlinePageNumber resolve none = 1) ∧
    (∀ (resolve : JStr → Option Nat) (outline : List OutlineNode),
      ∀ e ∈ extractOutlineToc resolve outline, 1 ≤ e.pageNumber) := by
  have hmap : ∀ (resolve : JStr → Option Nat) (outline : List OutlineNode),
      (extractOutlineToc resolve outline).map
        (fun e => (e.pageNumber, e.level)) =
        claimOutlineSpec resolve outline 0 := by
    intro resolve outline
    exact (flattenOutlineForest_spec resolve outline 0 0).1
  refine ⟨?_, hmap, ?_, ?_, ?_, ?_⟩
  · intro resolve outline
    have h1 : ((extractOutlineToc resolve outline).map
        (fun e => (e.pageNumber, e.level))).length =
        (claimOutlineSpec resolve outline 0).length := by
      rw [hmap]
    rw [List.length_map, claimOutlineSpec_length] at h1
    exact h1
  · intro resolve d hnone
    unfold outlinePageNumber
    dsimp only
    by_cases he : d.isEmpty
    · rw [if_pos he]
    · rw [if_neg he, hnone]
  · intro resolve d i hsome he
    unfold outlinePageNumber
    dsimp only
    rw [if_neg he, hsome]
  · intro resolve
    rfl
  · intro resolve outline e he
    have hmem : (e.pageNumber, e.level) ∈
        claimOutlineSpec resolve outline 0 := by
      rw [← hmap resolve outline]
      exact List.mem_map_of_mem _ he
    exact claimOutlineSpec_pos resolve outline 0 (e.pageNumber, e.level) hmem

/-- Witness for C8: a destination whose lookup fails resolves to the
default page 1, and a resolvable one to its 1-based page number. -/
theorem pdf_outline_fault_tolerant_witness :
    outlinePageNumber (fun _ => none) (some ['x']) = 1 ∧
    outlinePageNumber (fun _ => some 4) (some ['x']) = 5 :=
  ⟨pdf_outline_fault_tolerant.2.2.1 (fun _ => none) ['x'] rfl,
   pdf_outline_fault_tolerant.2.2.2.1 (fun _ => some 4) ['x'] 4 rfl (by decide)⟩

/- ============================================================== -/
/- C5 — src/storage/index.ts, searchBookContent (lines 652-727):
   BM25 score ordering and normalization.                           -/
/- ============================================================== -/

/-- One row coming back from the FTS5 join, with its raw BM25 score
(negative, more negative = better; FTS5 computes it in floating point,
modelled exactly over ℚ). -/
structure RawSearchRow where
  bookId : JStr
  chapterIndex : Nat
  content : JStr
  bm25score : ℚ
  deriving DecidableEq

/-- One normalized search result. -/
structure SearchResultRow where
  bookId : JStr
  chapterIndex : Nat
  content : JStr
  score : ℚ
  deriving DecidableEq

/-- Stable insertion of a row into a list kept ascending by raw BM25
score — `ORDER BY bm25_score` (ascending, SQL default). -/
def insertRowByScore (r : RawSearchRow) : List RawSearchRow →
    List RawSearchRow
  | [] => [r]
  | x :: xs =>
    if x.bm25score ≤ r.bm25score then x :: insertRowByScore r xs
    else r :: x :: xs

/-- The `ORDER BY bm25_score` sort of the SQL query. -/
def sortRowsByScore (rows : List RawSearchRow) : List RawSearchRow :=
  rows.foldr insertRowByScore []

/-- JS `params.limit || 20` on an optional number (0 is falsy). -/
def jsOrNum (a : Option Nat) (b : Nat) : Nat :=
  match a with
  | none => b
  | some n => if n = 0 then b else n

/-- `searchBookContent` (storage/index.ts lines 652-727), given the
matching rows: order by raw BM25 score ascending, apply the `LIMIT`,
then normalize each score to `Math.abs(score) / maxAbsScore` where
`maxAbsScore = Math.max(...absScores, 1)` over the selected rows. -/
def searchBookContent (rows : List RawSearchRow) (limit? : Option Nat) :
    List SearchResultRow :=
  let sel := (sortRowsByScore rows).take (jsOrNum limit? 20)
  let maxAbsScore := sel.foldl (fun m r => max m |r.bm25score|) 1
  sel.map (fun r =>
    { bookId := r.bookId
      chapterIndex := r.chapterIndex
      content := r.content
      score := |r.bm25score| / maxAbsScore })

/-- From the claim: scores normalized by dividing each absolute raw
score by the maximum absolute raw score of the same result set (no
floor at 1). -/
def claimNormalizedScores (rows : List RawSearchRow) (limit? : Option Nat) :
    List ℚ :=
  let sel := (sortRowsByScore rows).take (jsOrNum limit? 20)
  let maxAbsScore := sel.foldl (fun m r => max m |r.bm25score|) 0
  sel.map (fun r => |r.bm25score| / maxAbsScore)

/-- **C5 counterexample.** For a single matching row with raw BM25
score -1/2, the code returns score 1/2 (it divides by
`Math.max(maxAbs, 1) = 1`), while the claimed formula — divide by the
maximum absolute score of the result set, here 1/2 — would give 1.
The claim is false at this input. -/
theorem search_score_normalization_counterexample :
    (searchBookContent
        [{ bookId := ['b'], chapterIndex := 0, content := ['c'],
           bm25score := -(1/2) }] none).map (fun r => r.score) =
      [1/2] ∧
    claimNormalizedScores
        [{ bookId := ['b'], chapterIndex := 0, content := ['c'],
           bm25score := -(1/2) }] none = [1] ∧
    ((1 : ℚ)/2) ≠ 1 := by
  have htake : ∀ r : RawSearchRow, List.take 20 [r] = [r] := by
    intro r
    apply List.take_of_length_le
    rw [List.length_cons, List.length_nil]
    omega
  have habs : |(-(1/2) : ℚ)| = 1/2 := by
    rw [abs_neg]
    exact abs_of_nonneg (by norm_num)
  refine ⟨?_, ?_, by norm_num⟩
  · simp only [searchBookContent, sortRowsByScore, insertRowByScore,
      jsOrNum, List.foldr_cons, List.foldr_nil, htake, List.foldl_cons,
      List.foldl_nil, List.map_cons, List.map_nil]
    rw [habs, max_eq_left (by norm_num : (1 : ℚ)/2 ≤ 1)]
    norm_num
  · simp only [claimNormalizedScores, sortRowsByScore, insertRowByScore,
      jsOrNum, List.foldr_cons, List.foldr_nil, htake, List.foldl_cons,
      List.foldl_nil, List.map_cons, List.map_nil]
    rw [habs, max_eq_right (by norm_num : (0 : ℚ) ≤ 1/2)]
    norm_num

theorem mem_insertRowByScore (r y : RawSearchRow) :
    ∀ l : List RawSearchRow, y ∈ insertRowByScore r l → y = r ∨ y ∈ l := by
  intro l
  induction l with
  | nil =>
    intro h
    simp [insertRowByScore] at h
    exact Or.inl h
  | cons x xs ih =>
    intro h
    unfold insertRowByScore at h
    by_cases hc : x.bm25score ≤ r.bm25score
    · rw [if_pos hc] at h
      rcases List.mem_cons.mp h with h | h
      · right; exact List.mem_cons.mpr (Or.inl h)
      · rcases ih h with h | h
        · left; exact h
        · right; exact List.mem_cons.mpr (Or.inr h)
    · rw [if_neg hc] at h
      rcases List.mem_cons.mp h with h | h
      · left; exact h
      · right; exact h

theorem pairwise_insertRowByScore (r : RawSearchRow) :
    ∀ l : List RawSearchRow,
    l.Pairwise (fun a b => a.bm25score ≤ b.bm25score) →
    (insertRowByScore r l).Pairwise
      (fun a b => a.bm25score ≤ b.bm25score) := by
  intro l
  induction l with
  | nil =>
    intro _
    simp [insertRowByScore]
  | cons x xs ih =>
    intro h
    rcases List.pairwise_cons.mp h with ⟨hx, hxs⟩
    unfold insertRowByScore
    by_cases hc : x.bm25score ≤ r.bm25score
    · rw [if_pos hc]
      apply List.pairwise_cons.mpr
      refine ⟨?_, ih hxs⟩
      intro y hy
      rcases mem_insertRowByScore r y xs hy with hy | hy
      · rw [hy]; exact hc
      · exact hx y hy
    · rw [if_neg hc]
      apply List.pairwise_cons.mpr
      refine ⟨?_, h⟩
      intro y hy
      rcases List.mem_cons.mp hy with hy | hy
      · rw [hy]
        linarith [lt_of_not_le hc]
      · have := hx y hy
        linarith [lt_of_not_le hc]

theorem sortRowsByScore_sorted (rows : List RawSearchRow) :
    (sortRowsByScore rows).Pairwise
      (fun a b => a.bm25score ≤ b.bm25score) := by
  unfold sortRowsByScore
  induction rows with
  | nil => simp
  | cons x xs ih =>
    rw [List.foldr_cons]
    exact pairwise_insertRowByScore x _ ih

theorem foldl_max_abs_le (l : List RawSearchRow) :
    ∀ (init : ℚ), init ≤ l.foldl (fun m r => max m |r.bm25score|) init ∧
    ∀ r ∈ l, |r.bm25score| ≤ l.foldl (fun m r => max m |r.bm25score|) init := by
  induction l with
  | nil =>
    intro init
    exact ⟨le_refl _, by intro r hr; simp at hr⟩
  | cons x xs ih =>
    intro init
    rw [List.foldl_cons]
    rcases ih (max init |x.bm25score|) with ⟨h1, h2⟩
    constructor
    · exact le_trans (le_max_left _ _) h1
    · intro r hr
      rcases List.mem_cons.mp hr with hr | hr
      · rw [hr]
        exact le_trans (le_max_right _ _) h1
      · exact h2 r hr

/-- **C5, amended.** Each returned score is the row's absolute raw
BM25 score divided by `max 1 M` where `M` is the maximum absolute raw
score of the returned result set (so the claimed ratio `|s| / M` holds
whenever `M ≥ 1`, but weak matches with `M < 1` are divided by 1
instead); all returned scores lie in `[0, 1]`; and the selected rows
are ordered ascending by raw BM25 score, i.e. best (most negative)
match first. -/
theorem search_score_normalization_amended (rows : List RawSearchRow)
    (limit? : Option Nat) :
    ((searchBookContent rows limit?).map (fun r => r.score) =
      ((sortRowsByScore rows).take (jsOrNum limit? 20)).map (fun r =>
        |r.bm25score| /
          max 1 (((sortRowsByScore rows).take (jsOrNum limit? 20)).foldl
            (fun m r => max m |r.bm25score|) 1))) ∧
    (∀ res ∈ searchBookContent rows limit?,
      0 ≤ res.score ∧ res.score ≤ 1) ∧
    ((sortRowsByScore rows).take (jsOrNum limit? 20)).Pairwise
      (fun a b => a.bm25score ≤ b.bm25score) := by
  have hsel : ∀ r ∈ (sortRowsByScore rows).take (jsOrNum limit? 20),
      |r.bm25score| ≤ ((sortRowsByScore rows).take (jsOrNum limit? 20)).foldl
        (fun m r => max m |r.bm25score|) 1 :=
    (foldl_max_abs_le _ 1).2
  have hinit : (1 : ℚ) ≤ ((sortRowsByScore rows).take
      (jsOrNum limit? 20)).foldl (fun m r => max m |r.bm25score|) 1 :=
    (foldl_max_abs_le _ 1).1
  refine ⟨?_, ?_, ?_⟩
  · unfold searchBookContent
    dsimp only
    rw [List.map_map]
    apply List.map_congr_left
    intro r _
    have hmax : max (1 : ℚ) (((sortRowsByScore rows).take
        (jsOrNum limit? 20)).foldl (fun m r => max m |r.bm25score|) 1) =
        ((sortRowsByScore rows).take (jsOrNum limit? 20)).foldl
          (fun m r => max m |r.bm25score|) 1 := max_eq_right hinit
    dsimp only [Function.comp]
    rw [hmax]
  · intro res hres
    unfold searchBookContent at hres
    dsimp only at hres
    rcases List.mem_map.mp hres with ⟨r, hr, hreq⟩
    rw [← hreq]
    dsimp only
    constructor
    · apply div_nonneg (abs_nonneg _)
      linarith
    · rw [div_le_one (by linarith)]
      exact hsel r hr
  · exact List.Pairwise.sublist (List.take_sublist _ _)
      (sortRowsByScore_sorted rows)

/-- Witness for C5 (amended): the single-row query with raw score -3
normalizes to score 1 and is well-bounded. -/
theorem search_score_normalization_amended_witness :
    (∀ res ∈ searchBookContent
        [{ bookId := ['b'], chapterIndex := 0, content := ['c'],
           bm25score := -3 }] none,
      0 ≤ res.score ∧ res.score ≤ 1) :=
  (search_score_normalization_amended
    [{ bookId := ['b'], chapterIndex := 0, content := ['c'],
       bm25score := -3 }] none).2.1

/- ============================================================== -/
/- C3 — src/storage/index.ts, indexBookContent (lines 582-625) and
   deleteBookContent (630-646): atomic replacement of a book's
   indexed content.                                                 -/
/- ============================================================== -/

/-- One row of `book_content`. -/
structure ContentRow where
  id : JStr
  bookId : JStr
  chapterIndex : Nat
  chapterTitle : JStr
  content : JStr
  contentHash : JStr
  indexedAt : JStr
  bookTitle : Option JStr
  author : Option JStr
  deriving DecidableEq

/-- One row of the `book_content_fts` full-text table. -/
structure FtsRow where
  content : JStr
  chapterTitle : JStr
  contentId : JStr
  bookId : JStr
  deriving DecidableEq

/-- The search-relevant database state. -/
structure SearchDb where
  contentRows : List ContentRow
  ftsRows : List FtsRow
  deriving DecidableEq

/-- `deleteBookContent` (storage/index.ts lines 630-646): collect the
content-row ids of the book, delete the FTS rows with those
`content_id`s, then delete the book's content rows. -/
def deleteBookContent (db : SearchDb) (bookId : JStr) : SearchDb :=
  let contentIds := (db.contentRows.filter
    (fun r => r.bookId == bookId)).map (fun r => r.id)
  { contentRows := db.contentRows.filter (fun r => !(r.bookId == bookId))
    ftsRows := db.ftsRows.filter
      (fun f => !(contentIds.contains f.contentId)) }

/-- The content row inserted for one chapter; `idFor k` models the
`generateId()` UUID drawn for the k-th insertion. -/
def newContentRow (bookId contentHash indexedAt : JStr)
    (bookTitle author : Option JStr) (idFor : Nat → JStr)
    (p : Nat × ExtractedChapter) : ContentRow :=
  { id := idFor p.1
    bookId := bookId
    chapterIndex := p.2.index
    chapterTitle := p.2.title
    content := p.2.content
    contentHash := contentHash
    indexedAt := indexedAt
    bookTitle := bookTitle
    author := author }

/-- The FTS row inserted for one chapter. -/
def newFtsRow (bookId : JStr) (idFor : Nat → JStr)
    (p : Nat × ExtractedChapter) : FtsRow :=
  { content := p.2.content
    chapterTitle := p.2.title
    contentId := idFor p.1
    bookId := bookId }

/-- `indexBookContent` (storage/index.ts lines 582-625): inside one
`better-sqlite3` transaction — which runs the callback synchronously
between BEGIN and COMMIT, so the whole update is a single step on the
observable state — delete all existing content for the book, then
insert one content row and one FTS row per chapter, all carrying the
given `contentHash` and `indexedAt`. -/
def indexBookContent (db : SearchDb) (bookId : JStr)
    (chapters : List ExtractedChapter) (contentHash : JStr)
    (bookTitle author : Option JStr) (idFor : Nat → JStr)
    (indexedAt : JStr) : SearchDb :=
  let db1 := deleteBookContent db bookId
  { contentRows := db1.contentRows ++ chapters.enum.map
      (newContentRow bookId contentHash indexedAt bookTitle author idFor)
    ftsRows := db1.ftsRows ++ chapters.enum.map (newFtsRow bookId idFor) }

/-- A transaction either commits in full or rolls back in full
(SQLite's contract, which `db.transaction` delegates to): the
observable state after a possibly-failing re-index. -/
def runIndexTransaction (ok : Bool) (db : SearchDb) (bookId : JStr)
    (chapters : List ExtractedChapter) (contentHash : JStr)
    (bookTitle author : Option JStr) (idFor : Nat → JStr)
    (indexedAt : JStr) : SearchDb :=
  if ok then
    indexBookContent db bookId chapters contentHash bookTitle author idFor
      indexedAt
  else db

/-- All content rows of one book share one `contentHash`. -/
def hashUniform (db : SearchDb) : Prop :=
  ∀ r ∈ db.contentRows, ∀ s ∈ db.contentRows,
    r.bookId = s.bookId → r.contentHash = s.contentHash

/-- Every FTS row points at a content row of the same book. -/
def ftsConsistent (db : SearchDb) : Prop :=
  ∀ f ∈ db.ftsRows, ∃ r ∈ db.contentRows,
    r.id = f.contentId ∧ r.bookId = f.bookId

theorem indexBookContent_mem (db : SearchDb) (bookId : JStr)
    (chapters : List ExtractedChapter) (contentHash : JStr)
    (bookTitle author : Option JStr) (idFor : Nat → JStr)
    (indexedAt : JStr) (r : ContentRow) :
    r ∈ (indexBookContent db bookId chapters contentHash bookTitle author
      idFor indexedAt).contentRows ↔
    (r ∈ db.contentRows ∧ r.bookId ≠ bookId) ∨
    (∃ p ∈ chapters.enum,
      r = newContentRow bookId contentHash indexedAt bookTitle author
        idFor p) := by
  unfold indexBookContent deleteBookContent
  dsimp only
  rw [List.mem_append, List.mem_filter, List.mem_map]
  constructor
  · rintro (⟨hmem, hne⟩ | ⟨p, hp, hpe⟩)
    · left
      refine ⟨hmem, ?_⟩
      simpa using hne
    · right
      exact ⟨p, hp, hpe.symm⟩
  · rintro (⟨hmem, hne⟩ | ⟨p, hp, hpe⟩)
    · left
      refine ⟨hmem, ?_⟩
      simpa using hne
    · right
      exact ⟨p, hp, hpe.symm⟩

theorem newContentRow_fields (bookId contentHash indexedAt : JStr)
    (bookTitle author : Option JStr) (idFor : Nat → JStr)
    (p : Nat × ExtractedChapter) :
    (newContentRow bookId contentHash indexedAt bookTitle author
      idFor p).bookId = bookId ∧
    (newContentRow bookId contentHash indexedAt bookTitle author
      idFor p).contentHash = contentHash := ⟨rfl, rfl⟩

/-- **C3.** Re-indexing a book replaces its rows atomically: after
`indexBookContent`, (1) every content row of the re-indexed book
carries the new `contentHash`; (2) rows of other books are exactly the
ones that were there before; (3) the invariant "all content rows of a
given book share one contentHash" is preserved; (4) assuming every FTS
row pointed at a content row of its book, no FTS row of the re-indexed
book survives except the freshly inserted ones; and (5) a re-index
transaction either applies in full or leaves the previous state
untouched — no mixed state is observable. -/
theorem reindex_atomic_uniform_hash (db : SearchDb) (bookId : JStr)
    (chapters : List ExtractedChapter) (contentHash : JStr)
    (bookTitle author : Option JStr) (idFor : Nat → JStr)
    (indexedAt : JStr) :
    (∀ r ∈ (indexBookContent db bookId chapters contentHash bookTitle author
        idFor indexedAt).contentRows,
      r.bookId = bookId → r.contentHash = contentHash) ∧
    (∀ r : ContentRow, r.bookId ≠ bookId →
      (r ∈ (indexBookContent db bookId chapters contentHash bookTitle author
        idFor indexedAt).contentRows ↔ r ∈ db.contentRows)) ∧
    (hashUniform db →
      hashUniform (indexBookContent db bookId chapters contentHash bookTitle
        author idFor indexedAt)) ∧
    (ftsConsistent db →
      ∀ f ∈ (indexBookContent db bookId chapters contentHash bookTitle author
          idFor indexedAt).ftsRows,
        f.bookId = bookId →
        ∃ p ∈ chapters.enum, f = newFtsRow bookId idFor p) ∧
    (∀ ok : Bool,
      runIndexTransaction ok db bookId chapters contentHash bookTitle author
          idFor indexedAt =
        indexBookContent db bookId chapters contentHash bookTitle author
          idFor indexedAt ∨
      runIndexTransaction ok db bookId chapters contentHash bookTitle author
          idFor indexedAt = db) := by
  have hmem := indexBookContent_mem db bookId chapters contentHash bookTitle
    author idFor indexedAt
  have hnew : ∀ r ∈ (indexBookContent db bookId chapters contentHash
      bookTitle author idFor indexedAt).contentRows,
      r.bookId = bookId → r.contentHash = contentHash := by
    intro r hr hrb
    rcases (hmem r).mp hr with ⟨_, hne⟩ | ⟨p, _, hpe⟩
    · exact absurd hrb hne
    · rw [hpe]
      rfl
  refine ⟨hnew, ?_, ?_, ?_, ?_⟩
  · intro r hne
    constructor
    · intro hr
      rcases (hmem r).mp hr with ⟨hmem2, _⟩ | ⟨p, _, hpe⟩
      · exact hmem2
      · exfalso
        apply hne
        rw [hpe]
        rfl
    · intro hr
      exact (hmem r).mpr (Or.inl ⟨hr, hne⟩)
  · intro huni r hr s hs hrs
    by_cases hrb : r.bookId = bookId
    · have hsb : s.bookId = bookId := by rw [← hrs, hrb]
      rw [hnew r hr hrb, hnew s hs hsb]
    · have hsb : s.bookId ≠ bookId := by rw [← hrs]; exact hrb
      rcases (hmem r).mp hr with ⟨hrmem, _⟩ | ⟨p, _, hpe⟩
      · rcases (hmem s).mp hs with ⟨hsmem, _⟩ | ⟨q, _, hqe⟩
        · exact huni r hrmem s hsmem hrs
        · exfalso; apply hsb; rw [hqe]; rfl
      · exfalso; apply hrb; rw [hpe]; rfl
  · intro hcons f hf hfb
    unfold indexBookContent deleteBookContent at hf
    dsimp only at hf
    rcases List.mem_append.mp hf with hf | hf
    · exfalso
      rcases List.mem_filter.mp hf with ⟨hfmem, hfpred⟩
      rcases hcons f hfmem with ⟨r, hrmem, hrid, hrbook⟩
      have : ((db.contentRows.filter (fun r => r.bookId == bookId)).map
          (fun r => r.id)).contains f.contentId = true := by
        rw [List.contains_eq_any_beq, List.any_eq_true]
        refine ⟨r.id, ?_, by rw [hrid]; exact beq_self_eq_true _⟩
        apply List.mem_map_of_mem
        rw [List.mem_filter]
        exact ⟨hrmem, by rw [hrbook, hfb]; exact beq_self_eq_true bookId⟩
      rw [this] at hfpred
      exact Bool.noConfusion hfpred
    · rcases List.mem_map.mp hf with ⟨p, hp, hpe⟩
      exact ⟨p, hp, hpe.symm⟩
  · intro ok
    unfold runIndexTransaction
    rcases ok with _ | _
    · right; rfl
    · left; rfl

/-- A one-row database for the C3 witness. -/
def c3WitnessRow : ContentRow :=
  { id := ['i']
    bookId := ['b']
    chapterIndex := 0
    chapterTitle := ['t']
    content := ['c']
    contentHash := ['h']
    indexedAt := ['d']
    bookTitle := none
    author := none }

def c3WitnessDb : SearchDb :=
  { contentRows := [c3WitnessRow]
    ftsRows := [] }

/-- Witness for C3: re-indexing a one-book database whose stored rows
carry an old hash preserves hash uniformity. -/
theorem reindex_atomic_uniform_hash_witness :
    hashUniform (indexBookContent c3WitnessDb ['b']
      [{ index := 0, title := ['t'], content := ['n'] }] ['g'] none none
      (fun _ => ['u']) ['e']) :=
  (reindex_atomic_uniform_hash c3WitnessDb ['b']
    [{ index := 0, title := ['t'], content := ['n'] }] ['g'] none none
    (fun _ => ['u']) ['e']).2.2.1 (by
      intro r hr s hs hrs
      simp only [c3WitnessDb, List.mem_singleton] at hr hs
      rw [hr, hs])

/- ============================================================== -/
/- C1 — src/server/epub-engine.ts, openEpub (lines 87-218) and
   normalizeHref (220-227): pagination-mode decision and chapter
   construction.                                                    -/
/- ============================================================== -/

/-- One item of the epub2 `flow` array. -/
structure FlowItem where
  id : JStr
  href : JStr
  deriving DecidableEq

/-- One entry of the epub2 navigation TOC (`EpubTocItem`): every field
may be missing. -/
structure EpubTocItem where
  href : Option JStr
  title : Option JStr
  level : Option Nat
  order : Option Nat
  deriving DecidableEq

/-- One item of `spine.contents` (`EpubSpineItem`). -/
structure SpineItem where
  id : JStr
  href : JStr
  title : Option JStr
  deriving DecidableEq

/-- The internal page structure built by `openEpub` (`PageInfo`). -/
structure PageInfo where
  title : JStr
  flowId : JStr
  href : JStr
  anchor : Option JStr
  deriving DecidableEq

/-- `s.replace(/^pre/, '')` for a literal prefix. -/
def stripPre (pre s : JStr) : JStr :=
  if List.isPrefixOf pre s then s.drop pre.length else s

/-- `normalizeHref` (epub-engine.ts lines 220-227): strip the common
packaging-root prefixes, each pattern applied in order. -/
def normalizeHref (href : JStr) : JStr :=
  stripPre "text/".toList (stripPre "xhtml/".toList (stripPre
    "OPS/".toList (stripPre "EPUB/".toList (stripPre "OEBPS/".toList href))))

/-- JS `href.split('#')[0]`. -/
def fileOf (h : JStr) : JStr := h.takeWhile (fun c => c ≠ '#')

/-- JS `href.split('#')[1]` (`undefined` when there is no `#`). -/
def anchorOf (h : JStr) : Option JStr :=
  let rest := h.dropWhile (fun c => c ≠ '#')
  if rest.isEmpty then none
  else some ((rest.drop 1).takeWhile (fun c => c ≠ '#'))

/-- A JS `Map<string, string>` as an insertion-ordered association
list; `Map.set` appends and lookup takes the latest binding. -/
abbrev JsMap := List (JStr × JStr)

def mset (m : JsMap) (k v : JStr) : JsMap := m ++ [(k, v)]

def mget (m : JsMap) (k : JStr) : Option JStr := List.lookup k m.reverse

/-- Insert only when the key is absent (`if (!map.has(k)) map.set(k,v)`). -/
def msetIfAbsent (m : JsMap) (k v : JStr) : JsMap :=
  if (mget m k).isSome then m else m ++ [(k, v)]

/-- The `hrefToFlowId` map of `openEpub` (lines 102-110): for each
flow item, in order, bind both its raw and its normalized href to its
id (later items overwrite). -/
def hrefToFlowIdMap (flow : List FlowItem) : JsMap :=
  flow.foldl (fun m it =>
    mset (mset m it.href it.id) (normalizeHref it.href) it.id) []

/-- The `hrefToTocTitle` map of `openEpub` (lines 113-125): for each
TOC entry with truthy href and title, in order, bind the entry's file
href (and its normalization) to the title, first writer wins. -/
def hrefToTocTitleMap (toc : List EpubTocItem) : JsMap :=
  toc.foldl (fun m t =>
    if jsTruthy t.href && jsTruthy t.title then
      msetIfAbsent (msetIfAbsent m (fileOf (t.href.getD []))
        (t.title.getD []))
        (normalizeHref (fileOf (t.href.getD []))) (t.title.getD [])
    else m) []

/-- `toc.some((t) => t.href?.includes('#'))`. -/
def hasAnchorHref (t : EpubTocItem) : Bool :=
  match t.href with
  | some h => h.contains '#'
  | none => false

/-- The pagination-mode decision (epub-engine.ts lines 129-130):
anchor-based iff the TOC has strictly more entries than the flow and
some TOC href carries a `#` fragment. -/
def useAnchorBasedPages (flow : List FlowItem) (toc : List EpubTocItem) :
    Bool :=
  decide (flow.length < toc.length) && toc.any hasAnchorHref

/-- `(a.order ?? 0)`. -/
def tocOrder (t : EpubTocItem) : Nat := t.order.getD 0

/-- Stable insertion by `order` — `[...toc].sort((a, b) =>
(a.order ?? 0) - (b.order ?? 0))` (ES2019 sort is stable; a stable
sort is unique, so insertion sort models it exactly). -/
def insertTocByOrder (x : EpubTocItem) : List EpubTocItem →
    List EpubTocItem
  | [] => [x]
  | y :: ys =>
    if tocOrder y < tocOrder x then y :: insertTocByOrder x ys
    else x :: y :: ys

def sortToc (l : List EpubTocItem) : List EpubTocItem :=
  l.foldr insertTocByOrder []

/-- `` `Page ${n}` ``. -/
def pageTitle (n : Nat) : JStr := "Page ".toList ++ natChars n

/-- One iteration of the anchor-based page loop (epub-engine.ts lines
138-152): skip entries without a truthy href, resolve the file part of
the href through `hrefToFlowId` (raw key first, then normalized), skip
unresolved entries, and push a page carrying the flow document and the
anchor, with a `Page ${pages.length + 1}` title fallback. -/
def anchorStep (m : JsMap) (pages : List PageInfo) (t : EpubTocItem) :
    List PageInfo :=
  match t.href with
  | none => pages
  | some h =>
    if h.isEmpty then pages
    else
      match jsOr (mget m (fileOf h)) (mget m (normalizeHref (fileOf h))) with
      | none => pages
      | some fid =>
        if fid.isEmpty then pages
        else pages ++
          [{ title := (jsOr t.title (some (pageTitle
                (pages.length + 1)))).getD []
             flowId := fid
             href := fileOf h
             anchor := anchorOf h }]

/-- One page of the flow-based branch (epub-engine.ts lines 156-175):
each spine item becomes a page, titled by its embedded title, else the
TOC-title map (raw href, then normalized), else `Page ${i + 1}`. -/
def flowModePage (titles : JsMap) (p : Nat × SpineItem) : PageInfo :=
  { title := (jsOr (jsOr p.2.title (jsOr (mget titles p.2.href)
      (mget titles (normalizeHref p.2.href))))
      (some (pageTitle (p.1 + 1)))).getD []
    flowId := p.2.id
    href := p.2.href
    anchor := none }

/-- The page-list construction of `openEpub` (lines 129-176). -/
def openEpubPages (flow : List FlowItem) (toc : List EpubTocItem)
    (spine : List SpineItem) : List PageInfo :=
  if useAnchorBasedPages flow toc then
    (sortToc toc).foldl (anchorStep (hrefToFlowIdMap flow)) []
  else spine.enum.map (flowModePage (hrefToTocTitleMap toc))

/-- From the claim: which flow document a TOC file href resolves to —
the last flow item whose raw or normalized href equals the (raw, then
normalized) file href. -/
def flowLookup (flow : List FlowItem) (k : JStr) : Option JStr :=
  (flow.reverse.find? (fun it =>
    it.href == k || normalizeHref it.href == k)).map (fun it => it.id)

def resolveFlowDoc (flow : List FlowItem) (fileHref : JStr) : Option JStr :=
  jsOr (flowLookup flow fileHref) (flowLookup flow (normalizeHref fileHref))

/-- From the claim: in anchor-based mode each TOC entry whose file
href resolves to a flow document becomes exactly one chapter, carrying
that document and the anchor, in TOC order; `cnt` counts the chapters
already produced (for the `Page N` title fallback). -/
def claimAnchorChapters (flow : List FlowItem) :
    List EpubTocItem → Nat → List PageInfo
  | [], _ => []
  | t :: ts, cnt =>
    match t.href with
    | none => claimAnchorChapters flow ts cnt
    | some h =>
      if h.isEmpty then claimAnchorChapters flow ts cnt
      else
        match resolveFlowDoc flow (fileOf h) with
        | none => claimAnchorChapters flow ts cnt
        | some fid =>
          if fid.isEmpty then claimAnchorChapters flow ts cnt
          else
            { title := (jsOr t.title (some (pageTitle (cnt + 1)))).getD []
              flowId := fid
              href := fileOf h
              anchor := anchorOf h } ::
              claimAnchorChapters flow ts (cnt + 1)

/-- From the claim: the first TOC entry (with truthy href and title)
whose file href matches the key, raw or normalized. -/
def tocTitleFor (toc : List EpubTocItem) (k : JStr) : Option JStr :=
  (toc.find? (fun t => (jsTruthy t.href && jsTruthy t.title) &&
    (fileOf (t.href.getD []) == k ||
      normalizeHref (fileOf (t.href.getD [])) == k))).map
    (fun t => t.title.getD [])

/-- From the claim: in flow-based mode each spine document becomes
exactly one chapter, titled by the spine-embedded title if present,
else the first TOC entry matching that file's href, else the synthetic
`Page N` (N = 1-based spine position). -/
def claimFlowChapter (toc : List EpubTocItem) (p : Nat × SpineItem) :
    PageInfo :=
  { title := (jsOr (jsOr p.2.title (jsOr (tocTitleFor toc p.2.href)
      (tocTitleFor toc (normalizeHref p.2.href))))
      (some (pageTitle (p.1 + 1)))).getD []
    flowId := p.2.id
    href := p.2.href
    anchor := none }

/-- Plain first-defined choice on options (JS `map.get(a) ?? b` shape,
used to state map-lookup characterizations). -/
def optOr (a b : Option JStr) : Option JStr :=
  match a with
  | some x => some x
  | none => b

theorem optOr_none (a : Option JStr) : optOr a none = a := by
  rcases a with _ | x <;> rfl

theorem optOr_assoc (a b c : Option JStr) :
    optOr (optOr a b) c = optOr a (optOr b c) := by
  rcases a with _ | x <;> rfl

theorem optOr_some_right (a : Option JStr) (v : JStr) :
    optOr (optOr a (some v)) c = optOr a (some v) := by
  rcases a with _ | x <;> rfl

theorem mget_nil (k : JStr) : mget [] k = none := rfl

theorem mget_mset (m : JsMap) (k1 v k : JStr) :
    mget (mset m k1 v) k = if k == k1 then some v else mget m k := by
  unfold mget mset
  rw [List.reverse_append]
  rw [show (([(k1, v)] : JsMap).reverse ++ m.reverse) =
    (k1, v) :: m.reverse from rfl]
  rw [show List.lookup k ((k1, v) :: m.reverse) =
    (match k == k1 with
      | true => some v
      | false => List.lookup k m.reverse) from rfl]
  cases hkk : (k == k1) <;> simp [hkk]

theorem mget_msetIfAbsent (m : JsMap) (k1 v k : JStr) :
    mget (msetIfAbsent m k1 v) k =
      optOr (mget m k) (if k == k1 then some v else none) := by
  unfold msetIfAbsent
  by_cases h1 : (mget m k1).isSome
  · rw [if_pos h1]
    rcases hk : mget m k with _ | x
    · by_cases hkk : (k == k1) = true
      · exfalso
        rw [beq_iff_eq] at hkk
        rw [← hkk, hk] at h1
        simp at h1
      · rw [if_neg hkk]
        rfl
    · rfl
  · rw [if_neg h1]
    have hms : mget (mset m k1 v) k = if k == k1 then some v else mget m k :=
      mget_mset m k1 v k
    rw [show (m ++ [(k1, v)]) = mset m k1 v from rfl, hms]
    by_cases hkk : (k == k1) = true
    · rw [if_pos hkk, if_pos hkk]
      have hnone : mget m k1 = none := by
        rcases hmk : mget m k1 with _ | x
        · rfl
        · rw [hmk] at h1
          exact absurd (by simp) h1
      rw [beq_iff_eq] at hkk
      rw [hkk, hnone]
      rfl
    · rw [if_neg hkk, if_neg hkk, optOr_none]

theorem mget_flowFoldl (k : JStr) : ∀ (flow : List FlowItem) (m : JsMap),
    mget (flow.foldl (fun m it =>
      mset (mset m it.href it.id) (normalizeHref it.href) it.id) m) k =
      optOr ((flow.reverse.find? (fun it =>
        it.href == k || normalizeHref it.href == k)).map (fun it => it.id))
        (mget m k) := by
  intro flow
  induction flow with
  | nil => intro m; rfl
  | cons it rest ih =>
    intro m
    rw [List.foldl_cons, ih, List.reverse_cons, List.find?_append]
    rcases hrest : rest.reverse.find? (fun it =>
        it.href == k || normalizeHref it.href == k) with _ | j
    · rw [hrest, Option.none_or, Option.map_none', mget_mset, mget_mset]
      rw [show List.find? (fun it => it.href == k || normalizeHref it.href == k)
        [it] = (if (it.href == k || normalizeHref it.href == k) = true
          then some it else none) from by
          rw [List.find?_cons]
          rcases (it.href == k || normalizeHref it.href == k) with _ | _ <;> simp]
      by_cases h1 : it.href = k <;> by_cases h2 : normalizeHref it.href = k
      · simp [h1, h2, beq_iff_eq, optOr]
      · simp [h1, h2, beq_iff_eq, optOr]
      · simp [h1, h2, beq_iff_eq, optOr]
      · have e1 : (it.href == k) = false := by simp [h1]
        have e2 : (normalizeHref it.href == k) = false := by simp [h2]
        have e3 : (k == it.href) = false := by
          simp [beq_iff_eq]
          intro hc
          exact h1 hc.symm
        have e4 : (k == normalizeHref it.href) = false := by
          simp [beq_iff_eq]
          intro hc
          exact h2 hc.symm
        rw [e1, e2, e3, e4]
        simp [optOr]
    · rw [hrest]
      rw [show (some j).or (List.find? (fun it =>
          it.href == k || normalizeHref it.href == k) [it]) = some j from rfl]
      simp [optOr]

theorem mget_hrefToFlowIdMap (flow : List FlowItem) (k : JStr) :
    mget (hrefToFlowIdMap flow) k = flowLookup flow k := by
  unfold hrefToFlowIdMap flowLookup
  rw [mget_flowFoldl]
  exact optOr_none _

theorem mget_tocFoldl (k : JStr) : ∀ (toc : List EpubTocItem) (m : JsMap),
    mget (toc.foldl (fun m t =>
      if jsTruthy t.href && jsTruthy t.title then
        msetIfAbsent (msetIfAbsent m (fileOf (t.href.getD []))
          (t.title.getD []))
          (normalizeHref (fileOf (t.href.getD []))) (t.title.getD [])
      else m) m) k =
      optOr (mget m k) (tocTitleFor toc k) := by
  intro toc
  induction toc with
  | nil =>
    intro m
    rw [show tocTitleFor [] k = none from rfl, optOr_none]
    rfl
  | cons t ts ih =>
    intro m
    rw [List.foldl_cons, ih]
    by_cases hg : (jsTruthy t.href && jsTruthy t.title) = true
    · rw [if_pos hg, mget_msetIfAbsent, mget_msetIfAbsent, optOr_assoc,
        optOr_assoc]
      congr 1
      unfold tocTitleFor
      rw [List.find?_cons]
      by_cases h1 : fileOf (t.href.getD []) = k
      · by_cases h2 : normalizeHref (fileOf (t.href.getD [])) = k
        · simp [hg, h1, h2, beq_iff_eq, optOr]
        · simp [hg, h1, h2, Ne.symm h2, beq_iff_eq, optOr]
      · by_cases h2 : normalizeHref (fileOf (t.href.getD [])) = k
        · simp [hg, h1, h2, Ne.symm h1, beq_iff_eq, optOr]
        · have e1 : (fileOf (t.href.getD []) == k) = false := by simp [h1]
          have e2 : (normalizeHref (fileOf (t.href.getD [])) == k) = false := by
            simp [h2]
          simp [hg, Ne.symm h1, Ne.symm h2, e1, e2, optOr]
    · rw [if_neg hg]
      congr 1
      unfold tocTitleFor
      rw [List.find?_cons]
      simp [hg]

theorem mget_hrefToTocTitleMap (toc : List EpubTocItem) (k : JStr) :
    mget (hrefToTocTitleMap toc) k = tocTitleFor toc k := by
  unfold hrefToTocTitleMap
  rw [mget_tocFoldl]
  rfl

theorem anchorFoldl (flow : List FlowItem) : ∀ (ts : List EpubTocItem)
    (acc : List PageInfo),
    ts.foldl (anchorStep (hrefToFlowIdMap flow)) acc =
      acc ++ claimAnchorChapters flow ts acc.length := by
  intro ts
  induction ts with
  | nil =>
    intro acc
    rw [show claimAnchorChapters flow [] acc.length = [] from rfl]
    simp
  | cons t ts ih =>
    intro acc
    rw [List.foldl_cons]
    rcases ht : t.href with _ | h
    · simp only [anchorStep, claimAnchorChapters, ht]
      exact ih acc
    · have hres : jsOr (mget (hrefToFlowIdMap flow) (fileOf h))
          (mget (hrefToFlowIdMap flow) (normalizeHref (fileOf h))) =
          resolveFlowDoc flow (fileOf h) := by
        rw [mget_hrefToFlowIdMap, mget_hrefToFlowIdMap]
        rfl
      rcases hemp : h.isEmpty with _ | _
      · rcases hfid : resolveFlowDoc flow (fileOf h) with _ | fid
        · simp only [anchorStep, claimAnchorChapters, ht, hemp,
            Bool.false_eq_true, if_false, hres, hfid]
          exact ih acc
        · rcases hfe : fid.isEmpty with _ | _
          · simp only [anchorStep, claimAnchorChapters, ht, hemp, hfe,
              Bool.false_eq_true, if_false, hres, hfid]
            rw [ih, List.length_append, List.append_assoc]
            rfl
          · simp only [anchorStep, claimAnchorChapters, ht, hemp, hfe,
              Bool.false_eq_true, if_false, eq_self_iff_true, if_true,
              hres, hfid]
            exact ih acc
      · simp only [anchorStep, claimAnchorChapters, ht, hemp,
          eq_self_iff_true, if_true]
        exact ih acc

theorem flowModePage_eq (toc : List EpubTocItem) (p : Nat × SpineItem) :
    flowModePage (hrefToTocTitleMap toc) p = claimFlowChapter toc p := by
  unfold flowModePage claimFlowChapter
  rw [mget_hrefToTocTitleMap, mget_hrefToTocTitleMap]

/-- **C1.** EPUB pagination mode.  Anchor-based mode is chosen exactly
when the TOC has strictly more entries than the flow and some TOC href
contains a `#` fragment.  In anchor-based mode the chapter list is
exactly the claim's description: TOC entries in (order-sorted) TOC
order, one chapter per entry whose non-empty file href resolves (raw
key first, then normalized) to a non-empty flow document, carrying that
document and the anchor.  In flow-based mode each spine document
becomes exactly one chapter, titled by the spine-embedded title if
present, else the first TOC entry matching that file's href (raw, then
normalized), else `Page N` with `N` the 1-based spine position; in
particular the chapter count then equals the spine document count. -/
theorem epub_pagination_mode (flow : List FlowItem) (toc : List EpubTocItem)
    (spine : List SpineItem) :
    (useAnchorBasedPages flow toc = true ↔
      (flow.length < toc.length ∧
        ∃ t ∈ toc, ∃ h, t.href = some h ∧ h.contains '#' = true)) ∧
    (useAnchorBasedPages flow toc = true →
      openEpubPages flow toc spine = claimAnchorChapters flow (sortToc toc) 0) ∧
    (useAnchorBasedPages flow toc = false →
      openEpubPages flow toc spine = spine.enum.map (claimFlowChapter toc) ∧
      (openEpubPages flow toc spine).length = spine.length) := by
  refine ⟨?_, ?_, ?_⟩
  · unfold useAnchorBasedPages
    rw [Bool.and_eq_true, List.any_eq_true, decide_eq_true_iff]
    constructor
    · rintro ⟨hlt, t, hmem, hanch⟩
      refine ⟨hlt, t, hmem, ?_⟩
      unfold hasAnchorHref at hanch
      rcases hh : t.href with _ | h
      · rw [hh] at hanch; exact absurd hanch (by simp)
      · rw [hh] at hanch; exact ⟨h, rfl, hanch⟩
    · rintro ⟨hlt, t, hmem, h, hh, hc⟩
      refine ⟨hlt, t, hmem, ?_⟩
      unfold hasAnchorHref
      rw [hh]
      exact hc
  · intro hmode
    unfold openEpubPages
    rw [if_pos hmode, anchorFoldl]
    rfl
  · intro hmode
    unfold openEpubPages
    rw [if_neg (by rw [hmode]; exact Bool.false_ne_true)]
    constructor
    · exact List.map_congr_left (fun p _ => flowModePage_eq toc p)
    · simp

/-- Concrete EPUB data exercising the anchor-based branch: one flow
document, two TOC entries with `#` anchors into it. -/
def exFlowC1 : List FlowItem := [⟨"f1".toList, "OEBPS/ch1.xhtml".toList⟩]

def exTocC1 : List EpubTocItem :=
  [⟨some "ch1.xhtml#s1".toList, some "Intro".toList, some 0, some 1⟩,
   ⟨some "ch1.xhtml#s2".toList, none, some 0, some 2⟩]

theorem epub_pagination_mode_witness :
    useAnchorBasedPages exFlowC1 exTocC1 = true ∧
    openEpubPages exFlowC1 exTocC1 [] =
      claimAnchorChapters exFlowC1 (sortToc exTocC1) 0 := by
  refine ⟨by decide, (epub_pagination_mode exFlowC1 exTocC1 []).2.1 (by decide)⟩

/- ============================================================== -/
/- C6 — src/unnamed/part_003 `viewLibrary` (lines 50-92) and
   src/storage/index.ts `hashBook` (lines 288-291): library scan
   reconciliation keyed on the content hash.                       -/
/- ============================================================== -/

/-- One result of `scanDirectory` (the metadata `viewLibrary` consumes;
the file bytes themselves are read separately by `hashBook`). -/
structure ScannedBook where
  path : JStr
  title : JStr
  author : JStr
  format : JStr
  coverUrl : Option JStr
  description : Option JStr
  deriving DecidableEq

/-- One `LibraryBook` catalog entry. -/
structure LibBook where
  id : JStr
  path : JStr
  title : JStr
  author : JStr
  format : JStr
  coverUrl : Option JStr
  description : Option JStr
  addedAt : JStr
  deriving DecidableEq

/-- `hashBook` (storage/index.ts lines 288-291): read the file's raw
bytes through the filesystem `fs`, hash them (`digest` abstracts
sha256-hex) and keep the first 16 characters. -/
def hashBook (digest : List Nat → JStr) (fs : JStr → List Nat)
    (p : JStr) : JStr :=
  (digest (fs p)).take 16

/-- The in-place update of an existing catalog entry (part_003 lines
67-71): title, author, coverUrl and description are refreshed; id,
path and addedAt are left untouched. -/
def updExisting (s : ScannedBook) (b : LibBook) : LibBook :=
  { b with
    title := s.title
    author := s.author
    coverUrl := s.coverUrl
    description := s.description }

/-- The entry pushed for a newly seen book id (part_003 lines 73-83). -/
def newBook (bookId : JStr) (t : JStr) (s : ScannedBook) : LibBook :=
  { id := bookId
    path := s.path
    title := s.title
    author := s.author
    format := s.format
    coverUrl := s.coverUrl
    description := s.description
    addedAt := t }

/-- JS `array.find(p)` followed by mutation of the found element:
replace the first element satisfying `p` by its image under `f`. -/
def updateFirst (p : LibBook → Bool) (f : LibBook → LibBook) :
    List LibBook → List LibBook
  | [] => []
  | b :: bs => if p b then f b :: bs else b :: updateFirst p f bs

/-- One iteration of the add/update loop of `viewLibrary` (lines
62-85): compute the scanned file's content-hash id; if some entry
already carries that id, refresh it in place, otherwise push a new
entry (`t` is the timestamp used for `addedAt`). -/
def scanStep (digest : List Nat → JStr) (fs : JStr → List Nat) (t : JStr)
    (books : List LibBook) (s : ScannedBook) : List LibBook :=
  let bookId := hashBook digest fs s.path
  if books.any (fun b => b.id == bookId) then
    updateFirst (fun b => b.id == bookId) (updExisting s) books
  else books ++ [newBook bookId t s]

/-- `scannedBooks.some((s) => s.path === book.path)`. -/
def pathScanned (scanned : List ScannedBook) (b : LibBook) : Bool :=
  scanned.any (fun s => s.path == b.path)

/-- The whole catalog reconciliation of `viewLibrary` (lines 62-92):
the add/update loop over all scanned books followed by the removal of
entries whose paths were not observed by the scan. -/
def viewLibraryScan (digest : List Nat → JStr) (fs : JStr → List Nat)
    (t : JStr) (scanned : List ScannedBook) (books : List LibBook) :
    List LibBook :=
  (scanned.foldl (scanStep digest fs t) books).filter (pathScanned scanned)

/-- A concrete stand-in for sha256-hex: a function of the raw bytes
only (decimal digit per byte, padded to at least 16 characters). -/
def demoDigest (c : List Nat) : JStr :=
  (c.map (fun n => Char.ofNat (48 + n % 10))) ++ List.replicate 16 '0'

/-- A concrete directory: two files with identical bytes at distinct
paths, and one further file. -/
def exFs : JStr → List Nat := fun p =>
  if p == "/books/a.epub".toList then [1, 2, 3]
  else if p == "/books/b.epub".toList then [1, 2, 3]
  else if p == "/books/new.epub".toList then [5]
  else []

def exScanA : ScannedBook :=
  ⟨"/books/a.epub".toList, "T".toList, "A".toList, "epub".toList, none, none⟩

def exScanB : ScannedBook :=
  ⟨"/books/b.epub".toList, "T".toList, "A".toList, "epub".toList, none, none⟩

def exScanNew : ScannedBook :=
  ⟨"/books/new.epub".toList, "N".toList, "A".toList, "epub".toList,
    none, none⟩

/-- A catalog entry whose content still exists (now at
`/books/new.epub`) but whose recorded path is stale. -/
def exStale : LibBook :=
  ⟨hashBook demoDigest exFs "/books/new.epub".toList,
    "/books/old.epub".toList, "N".toList, "A".toList, "epub".toList,
    none, none, "t0".toList⟩

/-- **C6, counterexample.**  Two scanned files with distinct paths but
identical raw bytes share one content-hash id, so the reconciled
catalog ends up with a single entry — not "one entry per distinct file
path observed".  Moreover a second scan over the unchanged directory
need not reproduce the first scan's catalog: an entry whose recorded
path is stale (the file moved) is first updated in place and then
dropped by the path filter, and only the second scan re-adds it under
its current path. -/
theorem library_scan_counterexample :
    exScanA.path ≠ exScanB.path ∧
    exFs exScanA.path = exFs exScanB.path ∧
    (viewLibraryScan demoDigest exFs "t1".toList [exScanA, exScanB]
      []).length = 1 ∧
    viewLibraryScan demoDigest exFs "t1".toList [exScanNew]
        (viewLibraryScan demoDigest exFs "t1".toList [exScanNew]
          [exStale]) ≠
      viewLibraryScan demoDigest exFs "t1".toList [exScanNew] [exStale] := by
  decide

/-- Pointwise effect of one scanned book on one catalog entry. -/
def applyScan (digest : List Nat → JStr) (fs : JStr → List Nat)
    (s : ScannedBook) (b : LibBook) : LibBook :=
  if b.id == hashBook digest fs s.path then updExisting s b else b

/-- The last scanned book whose content-hash id is `i`. -/
def lastMatch (digest : List Nat → JStr) (fs : JStr → List Nat)
    (scanned : List ScannedBook) (i : JStr) : Option ScannedBook :=
  scanned.reverse.find? (fun s => i == hashBook digest fs s.path)

/-- Pointwise effect of a whole scan on one catalog entry: the last
matching scanned book's metadata wins. -/
def applyLast (digest : List Nat → JStr) (fs : JStr → List Nat)
    (scanned : List ScannedBook) (b : LibBook) : LibBook :=
  match lastMatch digest fs scanned b.id with
  | some s => updExisting s b
  | none => b

theorem applyScan_id (digest : List Nat → JStr) (fs : JStr → List Nat)
    (s : ScannedBook) (b : LibBook) :
    (applyScan digest fs s b).id = b.id := by
  unfold applyScan
  split <;> rfl

theorem applyScan_path (digest : List Nat → JStr) (fs : JStr → List Nat)
    (s : ScannedBook) (b : LibBook) :
    (applyScan digest fs s b).path = b.path := by
  unfold applyScan
  split <;> rfl

theorem applyLast_eq_some (digest : List Nat → JStr) (fs : JStr → List Nat)
    (scanned : List ScannedBook) (b : LibBook) (s : ScannedBook)
    (h : lastMatch digest fs scanned b.id = some s) :
    applyLast digest fs scanned b = updExisting s b := by
  unfold applyLast
  rw [h]

theorem applyLast_eq_none (digest : List Nat → JStr) (fs : JStr → List Nat)
    (scanned : List ScannedBook) (b : LibBook)
    (h : lastMatch digest fs scanned b.id = none) :
    applyLast digest fs scanned b = b := by
  unfold applyLast
  rw [h]

theorem lastMatch_cons (digest : List Nat → JStr) (fs : JStr → List Nat)
    (s : ScannedBook) (ss : List ScannedBook) (i : JStr) :
    lastMatch digest fs (s :: ss) i =
      (lastMatch digest fs ss i).or
        (if i == hashBook digest fs s.path then some s else none) := by
  unfold lastMatch
  rw [List.reverse_cons, List.find?_append]
  congr 1
  rw [List.find?_cons]
  rcases (i == hashBook digest fs s.path) with _ | _ <;> simp

theorem foldl_applyScan (digest : List Nat → JStr) (fs : JStr → List Nat) :
    ∀ (scanned : List ScannedBook) (b : LibBook),
      scanned.foldl (fun b s => applyScan digest fs s b) b =
        applyLast digest fs scanned b := by
  intro scanned
  induction scanned with
  | nil => intro b; rfl
  | cons s ss ih =>
    intro b
    rw [List.foldl_cons, ih]
    rcases hss : lastMatch digest fs ss (applyScan digest fs s b).id
        with _ | s3
    · rw [applyLast_eq_none digest fs ss _ hss]
      rw [applyScan_id] at hss
      by_cases hm : (b.id == hashBook digest fs s.path) = true
      · rw [show applyScan digest fs s b = updExisting s b from by
          unfold applyScan; rw [if_pos hm]]
        rw [applyLast_eq_some digest fs (s :: ss) b s (by
          rw [lastMatch_cons, hss, Option.none_or, if_pos hm])]
      · rw [show applyScan digest fs s b = b from by
          unfold applyScan; rw [if_neg hm]]
        rw [applyLast_eq_none digest fs (s :: ss) b (by
          rw [lastMatch_cons, hss, Option.none_or, if_neg hm])]
    · rw [applyLast_eq_some digest fs ss _ s3 hss]
      rw [applyScan_id] at hss
      rw [applyLast_eq_some digest fs (s :: ss) b s3 (by
        rw [lastMatch_cons, hss]; rfl)]
      unfold applyScan
      by_cases hm : (b.id == hashBook digest fs s.path) = true
      · rw [if_pos hm]
        rfl
      · rw [if_neg hm]

theorem applyLast_cons (digest : List Nat → JStr) (fs : JStr → List Nat)
    (s : ScannedBook) (ss : List ScannedBook) (b : LibBook) :
    applyLast digest fs (s :: ss) b =
      applyLast digest fs ss (applyScan digest fs s b) := by
  rw [← foldl_applyScan, ← foldl_applyScan, List.foldl_cons]

theorem applyLast_id (digest : List Nat → JStr) (fs : JStr → List Nat)
    (scanned : List ScannedBook) (b : LibBook) :
    (applyLast digest fs scanned b).id = b.id := by
  rcases h : lastMatch digest fs scanned b.id with _ | s
  · rw [applyLast_eq_none digest fs scanned b h]
  · rw [applyLast_eq_some digest fs scanned b s h]
    rfl

theorem applyLast_path (digest : List Nat → JStr) (fs : JStr → List Nat)
    (scanned : List ScannedBook) (b : LibBook) :
    (applyLast digest fs scanned b).path = b.path := by
  rcases h : lastMatch digest fs scanned b.id with _ | s
  · rw [applyLast_eq_none digest fs scanned b h]
  · rw [applyLast_eq_some digest fs scanned b s h]
    rfl

theorem applyLast_idem (digest : List Nat → JStr) (fs : JStr → List Nat)
    (scanned : List ScannedBook) (b : LibBook) :
    applyLast digest fs scanned (applyLast digest fs scanned b) =
      applyLast digest fs scanned b := by
  rcases h : lastMatch digest fs scanned b.id with _ | s
  · rw [applyLast_eq_none digest fs scanned b h,
      applyLast_eq_none digest fs scanned b h]
  · have hb : applyLast digest fs scanned b = updExisting s b :=
      applyLast_eq_some digest fs scanned b s h
    have h2 : lastMatch digest fs scanned (updExisting s b).id = some s := by
      rw [show (updExisting s b).id = b.id from rfl, h]
    rw [hb, applyLast_eq_some digest fs scanned (updExisting s b) s h2]
    rfl

theorem updateFirst_ids (p : LibBook → Bool) (f : LibBook → LibBook)
    (hf : ∀ b, (f b).id = b.id) :
    ∀ l : List LibBook,
      (updateFirst p f l).map (fun b => b.id) = l.map (fun b => b.id) := by
  intro l
  induction l with
  | nil => rfl
  | cons b bs ih =>
    unfold updateFirst
    by_cases hp : p b = true
    · rw [if_pos hp, List.map_cons, List.map_cons, hf b]
    · rw [if_neg hp, List.map_cons, List.map_cons, ih]

theorem updateFirst_eq_map (v : JStr) (f : LibBook → LibBook) :
    ∀ l : List LibBook, (l.map (fun b => b.id)).Nodup →
      updateFirst (fun b => b.id == v) f l =
        l.map (fun b => if b.id == v then f b else b) := by
  intro l
  induction l with
  | nil => intro h; rfl
  | cons b bs ih =>
    intro hn
    rw [List.map_cons, List.nodup_cons] at hn
    unfold updateFirst
    by_cases hp : (b.id == v) = true
    · rw [if_pos hp, List.map_cons, if_pos hp]
      congr 1
      have hbv : b.id = v := by rwa [beq_iff_eq] at hp
      have hall : ∀ x ∈ bs, (if x.id == v then f x else x) = x := by
        intro x hx
        have hne : (x.id == v) = false := by
          rw [beq_eq_false_iff_ne]
          intro he
          apply hn.1
          rw [hbv, ← he]
          exact List.mem_map_of_mem _ hx
        rw [hne]
        simp
      exact ((List.map_congr_left hall).trans (List.map_id bs)).symm
    · rw [if_neg hp, List.map_cons, if_neg hp, ih hn.2]

theorem newBook_id (bookId t : JStr) (s : ScannedBook) :
    (newBook bookId t s).id = bookId := rfl

theorem scanStep_nodup (digest : List Nat → JStr) (fs : JStr → List Nat)
    (t : JStr) (s : ScannedBook) (books : List LibBook)
    (hn : (books.map (fun b => b.id)).Nodup) :
    ((scanStep digest fs t books s).map (fun b => b.id)).Nodup := by
  unfold scanStep
  dsimp only
  by_cases ha : (books.any (fun b => b.id == hashBook digest fs s.path)) = true
  · rw [if_pos ha, updateFirst_ids
      (fun b => b.id == hashBook digest fs s.path) (updExisting s)
      (fun b => rfl)]
    exact hn
  · rw [if_neg ha, List.map_append]
    rw [List.nodup_append]
    refine ⟨hn, List.nodup_singleton _, ?_⟩
    intro x hx hx2
    simp only [List.map_cons, List.map_nil, List.mem_singleton] at hx2
    apply ha
    rw [List.any_eq_true]
    rw [List.mem_map] at hx
    rcases hx with ⟨b, hb, hbid⟩
    refine ⟨b, hb, ?_⟩
    rw [beq_iff_eq, hbid, hx2]
    rfl

theorem scanFold_nodup (digest : List Nat → JStr) (fs : JStr → List Nat)
    (t : JStr) : ∀ (scanned : List ScannedBook) (books : List LibBook),
    (books.map (fun b => b.id)).Nodup →
    ((scanned.foldl (scanStep digest fs t) books).map
      (fun b => b.id)).Nodup := by
  intro scanned
  induction scanned with
  | nil => intro books hn; exact hn
  | cons s ss ih =>
    intro books hn
    rw [List.foldl_cons]
    exact ih _ (scanStep_nodup digest fs t s books hn)

theorem scanFold_eq_map (digest : List Nat → JStr) (fs : JStr → List Nat)
    (t : JStr) : ∀ (scanned : List ScannedBook) (books : List LibBook),
    (books.map (fun b => b.id)).Nodup →
    (∀ s ∈ scanned, ∃ b ∈ books, b.id = hashBook digest fs s.path) →
    scanned.foldl (scanStep digest fs t) books =
      books.map (applyLast digest fs scanned) := by
  intro scanned
  induction scanned with
  | nil =>
    intro books _ _
    exact (List.map_id books).symm ▸ rfl
  | cons s ss ih =>
    intro books hn hpres
    rw [List.foldl_cons]
    have hstep : scanStep digest fs t books s =
        books.map (applyScan digest fs s) := by
      unfold scanStep
      dsimp only
      have ha : books.any (fun b => b.id == hashBook digest fs s.path) =
          true := by
        rw [List.any_eq_true]
        rcases hpres s (List.mem_cons_self s ss) with ⟨b, hb, hbid⟩
        exact ⟨b, hb, by rw [beq_iff_eq]; exact hbid⟩
      rw [if_pos ha, updateFirst_eq_map (hashBook digest fs s.path)
        (updExisting s) books hn]
      rfl
    rw [hstep]
    have hn' : ((books.map (applyScan digest fs s)).map
        (fun b => b.id)).Nodup := by
      rw [List.map_map]
      have he : books.map ((fun b => b.id) ∘ applyScan digest fs s) =
          books.map (fun b => b.id) :=
        List.map_congr_left (fun b _ => applyScan_id digest fs s b)
      rw [he]
      exact hn
    have hpres' : ∀ s2 ∈ ss, ∃ b2 ∈ books.map (applyScan digest fs s),
        b2.id = hashBook digest fs s2.path := by
      intro s2 hs2
      rcases hpres s2 (List.mem_cons_of_mem s hs2) with ⟨b, hb, hbid⟩
      exact ⟨applyScan digest fs s b, List.mem_map_of_mem _ hb,
        by rw [applyScan_id]; exact hbid⟩
    rw [ih _ hn' hpres', List.map_map]
    exact List.map_congr_left
      (fun b _ => (applyLast_cons digest fs s ss b).symm)

theorem viewLibraryScan_eq_map (digest : List Nat → JStr)
    (fs : JStr → List Nat) (t : JStr) (scanned : List ScannedBook)
    (books : List LibBook)
    (hn : (books.map (fun b => b.id)).Nodup)
    (hall : ∀ s ∈ scanned, ∃ b ∈ books, b.id = hashBook digest fs s.path) :
    viewLibraryScan digest fs t scanned books =
      (books.filter (pathScanned scanned)).map
        (applyLast digest fs scanned) := by
  unfold viewLibraryScan
  rw [scanFold_eq_map digest fs t scanned books hn hall]
  rw [List.filter_map]
  congr 1
  apply List.filter_congr
  intro b _
  show pathScanned scanned (applyLast digest fs scanned b) =
    pathScanned scanned b
  unfold pathScanned
  rw [applyLast_path]

theorem pathScanned_applyLast (digest : List Nat → JStr)
    (fs : JStr → List Nat) (scanned : List ScannedBook) (b : LibBook) :
    pathScanned scanned (applyLast digest fs scanned b) =
      pathScanned scanned b := by
  unfold pathScanned
  rw [applyLast_path]

theorem viewLibraryScan_idem (digest : List Nat → JStr)
    (fs : JStr → List Nat) (t : JStr) (scanned : List ScannedBook)
    (books : List LibBook)
    (hn : (books.map (fun b => b.id)).Nodup)
    (hall : ∀ s ∈ scanned, ∃ b ∈ books,
      b.id = hashBook digest fs s.path ∧ pathScanned scanned b = true) :
    viewLibraryScan digest fs t scanned
        (viewLibraryScan digest fs t scanned books) =
      viewLibraryScan digest fs t scanned books := by
  have hall1 : ∀ s ∈ scanned, ∃ b ∈ books, b.id = hashBook digest fs s.path :=
    fun s hs => by
      rcases hall s hs with ⟨b, hb, h1, _⟩
      exact ⟨b, hb, h1⟩
  have h1 : viewLibraryScan digest fs t scanned books =
      (books.filter (pathScanned scanned)).map
        (applyLast digest fs scanned) :=
    viewLibraryScan_eq_map digest fs t scanned books hn hall1
  have hnL1 : ((viewLibraryScan digest fs t scanned books).map
      (fun b => b.id)).Nodup := by
    unfold viewLibraryScan
    exact List.Nodup.sublist
      (List.Sublist.map _ (List.filter_sublist _))
      (scanFold_nodup digest fs t scanned books hn)
  have hallL1 : ∀ s ∈ scanned, ∃ b ∈ viewLibraryScan digest fs t scanned
      books, b.id = hashBook digest fs s.path := by
    intro s hs
    rcases hall s hs with ⟨b, hb, hid, hpath⟩
    refine ⟨applyLast digest fs scanned b, ?_, ?_⟩
    · rw [h1]
      exact List.mem_map_of_mem _ (List.mem_filter.mpr ⟨hb, hpath⟩)
    · rw [applyLast_id]
      exact hid
  rw [viewLibraryScan_eq_map digest fs t scanned _ hnL1 hallL1]
  rw [h1]
  have hfil : ((books.filter (pathScanned scanned)).map
      (applyLast digest fs scanned)).filter (pathScanned scanned) =
      (books.filter (pathScanned scanned)).map
        (applyLast digest fs scanned) := by
    apply List.filter_eq_self.mpr
    intro a ha
    rw [List.mem_map] at ha
    rcases ha with ⟨b, hb, hba⟩
    rw [← hba, pathScanned_applyLast]
    exact (List.mem_filter.mp hb).2
  rw [hfil, List.map_map]
  exact List.map_congr_left
    (fun b _ => applyLast_idem digest fs scanned b)

/-- **C6 (amended).**  Library scan reconciliation, as the code keys it
on the content hash: (1) the book id is a pure function of the file's
raw bytes — files with identical bytes receive identical ids — and is
the 16-character truncation of the digest; (2) every entry of the
reconciled catalog has its path among the scanned paths (entries for
vanished files are retired); (3) if the catalog has no duplicate ids,
the reconciled catalog has none either; (4) re-scanning an unchanged
directory is idempotent provided every scanned file's content id is
already catalogued under a still-present path.  (The original claim's
"one entry per distinct file path" and unconditional double-scan
stability are refuted by `library_scan_counterexample`.) -/
theorem library_scan_amended (digest : List Nat → JStr)
    (fs : JStr → List Nat) (t : JStr) (scanned : List ScannedBook)
    (books : List LibBook) :
    (∀ p1 p2 : JStr, fs p1 = fs p2 →
      hashBook digest fs p1 = hashBook digest fs p2) ∧
    (∀ p : JStr, 16 ≤ (digest (fs p)).length →
      (hashBook digest fs p).length = 16) ∧
    (∀ b ∈ viewLibraryScan digest fs t scanned books,
      pathScanned scanned b = true) ∧
    ((books.map (fun b => b.id)).Nodup →
      ((viewLibraryScan digest fs t scanned books).map
        (fun b => b.id)).Nodup) ∧
    ((books.map (fun b => b.id)).Nodup →
      (∀ s ∈ scanned, ∃ b ∈ books,
        b.id = hashBook digest fs s.path ∧ pathScanned scanned b = true) →
      viewLibraryScan digest fs t scanned
          (viewLibraryScan digest fs t scanned books) =
        viewLibraryScan digest fs t scanned books) := by
  refine ⟨?_, ?_, ?_, ?_, ?_⟩
  · intro p1 p2 h
    unfold hashBook
    rw [h]
  · intro p h
    unfold hashBook
    rw [List.length_take]
    omega
  · intro b hb
    exact (List.mem_filter.mp hb).2
  · intro hn
    unfold viewLibraryScan
    exact List.Nodup.sublist
      (List.Sublist.map _ (List.filter_sublist _))
      (scanFold_nodup digest fs t scanned books hn)
  · intro hn hall
    exact viewLibraryScan_idem digest fs t scanned books hn hall

/-- A one-entry catalog as produced by a scan of `/books/new.epub`. -/
def exBooksC6 : List LibBook :=
  [newBook (hashBook demoDigest exFs "/books/new.epub".toList)
    "t1".toList exScanNew]

theorem library_scan_amended_witness :
    ((exBooksC6.map (fun b => b.id)).Nodup ∧
      (∀ s ∈ [exScanNew], ∃ b ∈ exBooksC6,
        b.id = hashBook demoDigest exFs s.path ∧
        pathScanned [exScanNew] b = true)) ∧
    viewLibraryScan demoDigest exFs "t1".toList [exScanNew]
        (viewLibraryScan demoDigest exFs "t1".toList [exScanNew]
          exBooksC6) =
      viewLibraryScan demoDigest exFs "t1".toList [exScanNew] exBooksC6 := by
  refine ⟨⟨by decide, by decide⟩, ?_⟩
  exact (library_scan_amended demoDigest exFs "t1".toList [exScanNew]
    exBooksC6).2.2.2.2 (by decide) (by decide)

end LibraLM
